import Mathlib

/-!
# SMTP probe session (lib/mail-sender/client.go)

A shallow embedding of the session driver of `client.go`: the step-sequencing
primitive `doCommand`, the opportunistic TLS upgrade `setTls`, the lazily
created certificate generator, the constructor `NewClient` and the two
procedures `SendTestEmail` and `SpoofingTest`.

The network, the `net/smtp` client, the certificate generator, the clock and
the logger are outside the program.  They are modelled by an environment
`Env` that answers every external call as a function of the whole history of
external calls made so far, and every external call is appended, with the
answer it got, to the `trace` carried by the session.  Go's `error` values are
`Option String` (`none` is `nil`).
-/

namespace MailSender

/-! ## Data model -/

/-- Modelled from the spec: the step vocabulary of package `smtp-commands`
(type `Commands`), which `client.go` imports but which is not part of the
sources at hand.  The constructors carry the names used by `client.go`. -/
inductive Commands
  | Ehlo
  | StartTls
  | MailFrom
  | RcptTo
  | Data
  | Quit
  | SpfFail
  | Timeout
  | Connection
  deriving DecidableEq, Repr

/-- Modelled from the spec: `lib.SmtpError`, a step paired with its underlying
cause; the declaration is not part of the sources at hand. -/
structure SmtpError where
  Command : Commands
  Err : String
  deriving DecidableEq, Repr

/-- Modelled from the spec: `lib.NewSmtpError`, which pairs a step with a
cause; the declaration is not part of the sources at hand. -/
def NewSmtpError (operation : Commands) (err : String) : SmtpError :=
  { Command := operation, Err := err }

/-- Modelled from the spec: `lib.TransportServer`, the remote host and the
test recipient; the declaration is not part of the sources at hand. -/
structure TransportServer where
  Server : String
  TestEmail : String
  deriving DecidableEq, Repr

/-- Modelled from the spec: `test_email.Email`, of which `client.go` reads the
field `From`; headers and body are kept as one payload. -/
structure Email where
  From : String
  Payload : String
  deriving DecidableEq, Repr

/-- The value built by `tlsgenerator.NewClient(notBefore, validity)`. -/
structure CertificateGenerator where
  notBefore : Int
  validity : Int
  deriving DecidableEq, Repr

/-- The fields of `tls.Config` that `client.go` touches, with the generator
and common name the configuration was produced from. -/
structure TlsConfig where
  generator : CertificateGenerator
  commonName : String
  ServerName : String
  MinVersion : Nat
  deriving DecidableEq, Repr

/-- The constant `tls.VersionTLS11`. -/
def VersionTLS11 : Nat := 0x0302

/-- The validity `30*365*24*time.Hour`, in nanoseconds. -/
def generatorValidity : Int := 30 * 365 * 24 * (3600 * 1000000000)

/-- The external calls made by `client.go`. -/
inductive Call
  | Connect (server : String) (timeout : Int)
  | SmtpNewClient (conn : Nat) (host : String)
  | SetDeadline (deadline : Int)
  | Hello (localName : String)
  | Extension (ext : String)
  | NewGenerator (notBefore : Int) (validity : Int)
  | GetTlsClientConfig (commonName : String)
  | StartTLS (config : TlsConfig)
  | TLSConnectionState
  | Log (msg : String)
  | Mail (sender : String)
  | Rcpt (recipient : String)
  | Data
  | PrepareHeaders (localName : String)
  | Write (body : String)
  | WriterClose
  | Quit
  | Close
  deriving DecidableEq, Repr

/-- One external call together with the error it returned. -/
structure Event where
  call : Call
  err : Option String
  deriving DecidableEq, Repr

/-- The world outside the program.  Every answer may depend on the whole
history of external calls. -/
structure Env where
  /-- The error returned by a fallible call. -/
  fail : List Event → Call → Option String
  /-- The answer of `smtp.Client.Extension`. -/
  extension : List Event → String → Bool
  /-- The clock `time.Now()`. -/
  now : List Event → Int
  /-- The connection handle returned by a successful `Connect`. -/
  conn : List Event → Nat
  /-- The client handle returned by a successful `smtp.NewClient`. -/
  smtpClient : List Event → Nat
  /-- The string `tlsgenerator.TlsVersion` renders for the connection state. -/
  tlsVersion : List Event → String
  /-- The method `Email.PrepareHeaders`. -/
  prepareHeaders : Email → String → Email
  /-- The method `Email.String`. -/
  emailString : Email → String

/-- The struct `Client` of `client.go`, with the history of external calls. -/
structure Client where
  smtpClient : Nat
  server : TransportServer
  localName : String
  tlsGenerator : Option CertificateGenerator
  optTimeout : Int
  connection : Nat
  lastError : Option SmtpError
  lastOperation : Option Commands
  trace : List Event
  deriving DecidableEq, Repr

/-- The type `SmtpOperation func() error`: a closure over the session. -/
abbrev SmtpOperation := Client → Option String × Client

/-- A fallible external call: ask the environment, log call and answer. -/
def Env.call (env : Env) (c : Client) (k : Call) : Option String × Client :=
  (env.fail c.trace k, { c with trace := c.trace ++ [⟨k, env.fail c.trace k⟩] })

/-- An external call whose error, if it has one, the program cannot see. -/
def record (c : Client) (k : Call) : Client :=
  { c with trace := c.trace ++ [⟨k, none⟩] }

/-! ## client.go -/

/-- The result of `NewClient`: the two Go results and the history. -/
structure NewClientResult where
  client : Option Client
  err : Option SmtpError
  world : List Event
  deriving DecidableEq, Repr

/-- `NewClient` (client.go 28-47). -/
def NewClient (env : Env) (world : List Event) (server : TransportServer) (localName : String)
    (connTimeout : Int) (optTimeout : Int) : NewClientResult :=
  let connect := Call.Connect server.Server connTimeout
  let world1 := world ++ [⟨connect, env.fail world connect⟩]
  match env.fail world connect with
  | some err =>
    { client := none, err := some (NewSmtpError Commands.Timeout err), world := world1 }
  | none =>
    let conn := env.conn world
    let newClient := Call.SmtpNewClient conn server.Server
    let world2 := world1 ++ [⟨newClient, env.fail world1 newClient⟩]
    match env.fail world1 newClient with
    | some err =>
      { client := none, err := some (NewSmtpError Commands.Connection err), world := world2 }
    | none =>
      { client := some
          { smtpClient := env.smtpClient world1
            server := server
            localName := localName
            tlsGenerator := none
            optTimeout := optTimeout
            connection := conn
            lastError := none
            lastOperation := none
            trace := world2 }
        err := none
        world := world2 }

/-- `getLastOperation` (client.go 49-51). -/
def getLastOperation (c : Client) : Option Commands × Option SmtpError :=
  (c.lastOperation, c.lastError)

/-- The call `c.tlsGenerator.GetTlsClientConfig(commonName)`. -/
def GetTlsClientConfig (c : Client) (g : CertificateGenerator) (commonName : String) :
    TlsConfig × Client :=
  ({ generator := g, commonName := commonName, ServerName := "", MinVersion := 0 },
    record c (Call.GetTlsClientConfig commonName))

/-- `getClientTLSConfig` (client.go 53-59). -/
def getClientTLSConfig (env : Env) (c : Client) (commonName : String) : TlsConfig × Client :=
  match c.tlsGenerator with
  | none =>
    let g : CertificateGenerator :=
      { notBefore := env.now c.trace, validity := generatorValidity }
    let c := { record c (Call.NewGenerator g.notBefore g.validity) with tlsGenerator := some g }
    GetTlsClientConfig c g commonName
  | some g => GetTlsClientConfig c g commonName

/-- Lines 66-71 of `doCommand`: note the step and arm the deadline. -/
def armDeadline (env : Env) (c : Client) (operation : Commands) : Client :=
  let c := { c with lastOperation := some operation }
  let r := env.call c (Call.SetDeadline (env.now c.trace + c.optTimeout))
  match r.1 with
  | some err => { r.2 with lastError := some (NewSmtpError Commands.Timeout err) }
  | none => r.2

/-- Lines 73-75 of `doCommand`: invoke the action and record its failure. -/
def runCallback (c : Client) (operation : Commands) (optCallback : SmtpOperation) : Client :=
  let r := optCallback c
  match r.1 with
  | some err => { r.2 with lastError := some (NewSmtpError operation err) }
  | none => r.2

/-- `doCommand` (client.go 61-77). -/
def doCommand (env : Env) (c : Client) (operation : Commands) (optCallback : SmtpOperation) :
    Client :=
  match c.lastError with
  | some _ => c
  | none => runCallback (armDeadline env c operation) operation optCallback

/-- `setTls` (client.go 79-95). -/
def setTls (env : Env) (c : Client) : Option String × Client :=
  let tlsSupport := env.extension c.trace "STARTTLS"
  let c := record c (Call.Extension "STARTTLS")
  if !tlsSupport then (none, c)
  else
    let r := getClientTLSConfig env c c.localName
    let c := r.2
    let tlsConfig := { r.1 with ServerName := c.server.Server, MinVersion := VersionTLS11 }
    let s := env.call c (Call.StartTLS tlsConfig)
    match s.1 with
    | some err => (some err, record s.2 (Call.Log ("Couldn't start TLS transaction: " ++ err)))
    | none =>
      let c := record s.2 Call.TLSConnectionState
      let tlsVersion := env.tlsVersion c.trace
      (none, record c (Call.Log ("[" ++ c.server.Server ++ "] TLS: " ++ tlsVersion)))

/-- The closure `c.Client.Hello(c.localName)` (client.go 102-104, 151-153). -/
def helloOp (env : Env) : SmtpOperation :=
  fun c => env.call c (Call.Hello c.localName)

/-- The closure `c.setTls()` (client.go 106-108, 155-157). -/
def setTlsOp (env : Env) : SmtpOperation :=
  fun c => setTls env c

/-- The closure `c.Client.Mail(...)` (client.go 110-112, 159-161). -/
def mailOp (env : Env) (sender : String) : SmtpOperation :=
  fun c => env.call c (Call.Mail sender)

/-- The closure `c.Client.Rcpt(c.server.TestEmail)` (client.go 113-115, 162-164). -/
def rcptOp (env : Env) : SmtpOperation :=
  fun c => env.call c (Call.Rcpt c.server.TestEmail)

/-- The closure of the Data step (client.go 117-134). -/
def dataOp (env : Env) (email : Email) : SmtpOperation :=
  fun c =>
    let d := env.call c Call.Data
    match d.1 with
    | some err => (some err, d.2)
    | none =>
      let c := record d.2 (Call.PrepareHeaders d.2.localName)
      let w := env.call c (Call.Write (env.emailString (env.prepareHeaders email c.localName)))
      match w.1 with
      | some err => (some err, w.2)
      | none => env.call w.2 Call.WriterClose

/-- The closure `c.Client.Quit()` (client.go 136-138). -/
def quitOp (env : Env) : SmtpOperation :=
  fun c => env.call c Call.Quit

/-- `SendTestEmail` (client.go 98-141).  The deferred `Close` runs after the
result has been read. -/
def SendTestEmail (env : Env) (c : Client) (email : Email) : Option SmtpError × Client :=
  let c := doCommand env c Commands.Ehlo (helloOp env)
  let c := doCommand env c Commands.StartTls (setTlsOp env)
  let c := doCommand env c Commands.MailFrom (mailOp env email.From)
  let c := doCommand env c Commands.RcptTo (rcptOp env)
  let c := doCommand env c Commands.Data (dataOp env email)
  let c := doCommand env c Commands.Quit (quitOp env)
  let result := c.lastError
  (result, (env.call c Call.Close).2)

/-- `SpoofingTest` (client.go 144-167).  The deferred calls run last
registered first, after the result has been read. -/
def SpoofingTest (env : Env) (c : Client) (sender : String) : Option SmtpError × Client :=
  let c := { c with lastError := none }
  let c := doCommand env c Commands.Ehlo (helloOp env)
  let c := doCommand env c Commands.StartTls (setTlsOp env)
  let c := doCommand env c Commands.SpfFail (mailOp env sender)
  let c := doCommand env c Commands.SpfFail (rcptOp env)
  let result := c.lastError
  let c := (env.call c Call.Close).2
  (result, (env.call c Call.Quit).2)

/-- A sequence of `doCommand` calls on one session, in order. -/
def doCommands (env : Env) (c : Client) (steps : List (Commands × SmtpOperation)) : Client :=
  steps.foldl (fun c step => doCommand env c step.1 step.2) c

/-- One use of the TLS machinery of a session: a call of `setTls` or a call of
`getClientTLSConfig` with some common name. -/
inductive TlsUse
  | setTls
  | getClientTLSConfig (commonName : String)
  deriving DecidableEq, Repr

/-- The session after one use of the TLS machinery. -/
def TlsUse.run (env : Env) (c : Client) : TlsUse → Client
  | TlsUse.setTls => (MailSender.setTls env c).2
  | TlsUse.getClientTLSConfig commonName => (MailSender.getClientTLSConfig env c commonName).2

/-- A sequence of uses of the TLS machinery on one session, in order. -/
def runTlsUses (env : Env) (c : Client) (uses : List TlsUse) : Client :=
  uses.foldl (TlsUse.run env) c

/-- Is this event a call of the constructor `tlsgenerator.NewClient`? -/
def isNewGenerator (e : Event) : Bool :=
  match e.call with
  | Call.NewGenerator _ _ => true
  | _ => false

/-- How many times the history calls `tlsgenerator.NewClient`. -/
def newGeneratorCount (t : List Event) : Nat :=
  t.countP isNewGenerator

/-- The number of generators a session may still create: one when none is
stored, zero otherwise. -/
def generatorsLeft (c : Client) : Nat :=
  match c.tlsGenerator with
  | none => 1
  | some _ => 0

/-- The six steps of `SendTestEmail`, in the order of the source. -/
def sendTestEmailSteps (env : Env) (email : Email) : List (Commands × SmtpOperation) :=
  [(Commands.Ehlo, helloOp env), (Commands.StartTls, setTlsOp env),
    (Commands.MailFrom, mailOp env email.From), (Commands.RcptTo, rcptOp env),
    (Commands.Data, dataOp env email), (Commands.Quit, quitOp env)]

/-- The four steps of `SpoofingTest`, in the order of the source. -/
def spoofingSteps (env : Env) (sender : String) : List (Commands × SmtpOperation) :=
  [(Commands.Ehlo, helloOp env), (Commands.StartTls, setTlsOp env),
    (Commands.SpfFail, mailOp env sender), (Commands.SpfFail, rcptOp env)]

/-- What a run of a step list amounts to: the steps whose action was invoked,
the error returned and the session reached. -/
structure Outcome where
  invoked : List Commands
  err : Option SmtpError
  session : Client

/-- The step sequence as the specification words it (sections 4.2 and 4.4, not
the source): the steps are taken in order; for each one the step is noted and
its deadline armed, then its action is invoked; the first action that fails
ends the run with the error made of that step and that cause, and no later
action is invoked; when no action fails there is no error. -/
def runUntilFailure (env : Env) : Client → List (Commands × SmtpOperation) → Outcome
  | c, [] => { invoked := [], err := none, session := c }
  | c, (s, a) :: rest =>
    match (a (armDeadline env c s)).1 with
    | some e =>
      { invoked := [s], err := some (NewSmtpError s e), session := (a (armDeadline env c s)).2 }
    | none =>
      let r := runUntilFailure env (a (armDeadline env c s)).2 rest
      { invoked := s :: r.invoked, err := r.err, session := r.session }

/-- The step of `SendTestEmail` whose action begins with this call, if any. -/
def stepOfCall : Call → Option Commands
  | Call.Hello _ => some Commands.Ehlo
  | Call.Extension _ => some Commands.StartTls
  | Call.Mail _ => some Commands.MailFrom
  | Call.Rcpt _ => some Commands.RcptTo
  | Call.Data => some Commands.Data
  | Call.Quit => some Commands.Quit
  | _ => none

/-- The steps of `SendTestEmail` whose action a history shows to have begun,
in order. -/
def stepsStarted (t : List Event) : List Commands :=
  t.filterMap (fun e => stepOfCall e.call)

/-- Is this event a call of `Client.Close`? -/
def isCloseCall (e : Event) : Bool :=
  match e.call with
  | Call.Close => true
  | _ => false

/-- Is this event a call of `Client.Quit`? -/
def isQuitCall (e : Event) : Bool :=
  match e.call with
  | Call.Quit => true
  | _ => false

/-- Is this event a call of `Client.Quit` that completed?  In `net/smtp` a
`Quit` that completes closes the connection. -/
def quitCompleted (e : Event) : Bool :=
  match e.call, e.err with
  | Call.Quit, none => true
  | _, _ => false

/-- How many times the history calls `Client.Close`. -/
def closeCalls (t : List Event) : Nat :=
  t.countP isCloseCall

/-- How many times the history calls `Client.Quit`. -/
def quitCalls (t : List Event) : Nat :=
  t.countP isQuitCall

/-- How many calls of `Client.Quit` completed in the history. -/
def completedQuits (t : List Event) : Nat :=
  t.countP quitCompleted

/-- How many operations of the history close the connection: every
`Client.Close` and every `Client.Quit` that completes. -/
def connectionCloses (t : List Event) : Nat :=
  closeCalls t + completedQuits t

/-- An event that is neither a `Close` nor a `Quit`. -/
def NotCloseNorQuit (e : Event) : Prop :=
  e.call ≠ Call.Close ∧ e.call ≠ Call.Quit

/-! ## Sample environments and sessions -/

/-- A server on which every call succeeds and STARTTLS is not advertised. -/
def envOk : Env :=
  { fail := fun _ _ => none
    extension := fun _ _ => false
    now := fun _ => 0
    conn := fun _ => 1
    smtpClient := fun _ => 2
    tlsVersion := fun _ => "TLS 1.2"
    prepareHeaders := fun email _ => email
    emailString := fun email => email.Payload }

/-- A server on which arming a deadline fails and the sender is rejected. -/
def envDeadlineAndSender : Env :=
  { envOk with
    fail := fun _ k =>
      match k with
      | Call.SetDeadline _ => some "deadline"
      | Call.Mail _ => some "sender rejected"
      | _ => none }

/-- A server that advertises STARTTLS and on which every call succeeds. -/
def envTls : Env :=
  { envOk with extension := fun _ _ => true }

/-- A server that refuses the connection. -/
def envRefused : Env :=
  { envOk with
    fail := fun _ k =>
      match k with
      | Call.Connect _ _ => some "connection refused"
      | _ => none }

/-- A server without STARTTLS that rejects the sender. -/
def envSenderRejected : Env :=
  { envOk with
    fail := fun _ k =>
      match k with
      | Call.Mail _ => some "sender rejected"
      | _ => none }

/-- A server without STARTTLS that accepts the sender and rejects the
recipient. -/
def envRecipientRejected : Env :=
  { envOk with
    fail := fun _ k =>
      match k with
      | Call.Rcpt _ => some "relay denied"
      | _ => none }

/-- A server without STARTTLS on which every call succeeds while the connection
is open and every call fails once it has been closed. -/
def envClosing : Env :=
  { envOk with
    fail := fun t _ =>
      if 0 < connectionCloses t then some "use of closed network connection" else none }

/-- A server that differs from `envOk` only in that `Close` and `Quit` fail. -/
def envCleanupFails : Env :=
  { envOk with
    fail := fun _ k =>
      match k with
      | Call.Close => some "close failed"
      | Call.Quit => some "quit failed"
      | _ => none }

/-- The transport descriptor of the samples. -/
def sampleServer : TransportServer :=
  { Server := "mx.example.org", TestEmail := "probe@example.org" }

/-- A session as `NewClient` builds it, before any step. -/
def freshClient : Client :=
  { smtpClient := 2
    server := sampleServer
    localName := "probe.local"
    tlsGenerator := none
    optTimeout := 30
    connection := 1
    lastError := none
    lastOperation := none
    trace := [] }

/-- The message of the samples. -/
def sampleEmail : Email :=
  { From := "a@x.com", Payload := "Subject: probe" }

/-- A session on which the greeting has failed. -/
def failedClient : Client :=
  { freshClient with
    lastError := some (NewSmtpError Commands.Ehlo "no greeting")
    lastOperation := some Commands.Ehlo }

/-- An action that leaves the bookkeeping fields of the session alone, as every
closure of `client.go` does. -/
def KeepsBookkeeping (a : SmtpOperation) : Prop :=
  ∀ x, (a x).2.lastError = x.lastError ∧ (a x).2.lastOperation = x.lastOperation

/-- One step of the TLS machinery, from session `x` to session `y`: the history
grows, the constructor calls added are paid for by the generators left, and a
stored generator stays. -/
def TlsStep (x y : Client) : Prop :=
  (∃ added, y.trace = x.trace ++ added ∧
      newGeneratorCount added + generatorsLeft y = generatorsLeft x) ∧
    ∀ g, x.tlsGenerator = some g → y.tlsGenerator = some g

/-- An action whose calls, appended to the history, begin with the call that
marks step `s` and contain no other marking call. -/
def Starts (s : Commands) (a : SmtpOperation) : Prop :=
  ∀ x, ∃ first added, (a x).2.trace = x.trace ++ first :: added ∧
    stepOfCall first.call = some s ∧ ∀ e ∈ added, stepOfCall e.call = none

/-- The calls `setTls` makes after asking for the extension. -/
def tlsInternal : Call → Bool
  | Call.NewGenerator _ _ => true
  | Call.GetTlsClientConfig _ => true
  | Call.StartTLS _ => true
  | Call.TLSConnectionState => true
  | Call.Log _ => true
  | _ => false

/-- The calls the Data closure makes after opening the data stream. -/
def dataInternal : Call → Bool
  | Call.PrepareHeaders _ => true
  | Call.Write _ => true
  | Call.WriterClose => true
  | _ => false

/-- From session `x` to session `y` the history only grows, by events that all
satisfy `q`. -/
def AddsOnly (q : Event → Prop) (x y : Client) : Prop :=
  ∃ added, y.trace = x.trace ++ added ∧ ∀ e ∈ added, q e

/-! ## Properties of the step-sequencing engine -/

theorem doCommand_of_some (env : Env) (c : Client) (s : Commands) (a : SmtpOperation)
    (e : SmtpError) (h : c.lastError = some e) : doCommand env c s a = c := by
  simp [doCommand, h]

theorem doCommand_of_none (env : Env) (c : Client) (s : Commands) (a : SmtpOperation)
    (h : c.lastError = none) :
    doCommand env c s a = runCallback (armDeadline env c s) s a := by
  simp [doCommand, h]

theorem doCommands_of_some (env : Env) (steps : List (Commands × SmtpOperation)) :
    ∀ (c : Client) (e : SmtpError), c.lastError = some e → doCommands env c steps = c := by
  induction steps with
  | nil => intro c e _; rfl
  | cons step rest ih =>
    intro c e h
    have h1 : doCommand env c step.1 step.2 = c := doCommand_of_some env c _ _ e h
    show doCommands env (doCommand env c step.1 step.2) rest = c
    rw [h1]
    exact ih c e h

theorem doCommands_append (env : Env) (c : Client) (xs ys : List (Commands × SmtpOperation)) :
    doCommands env c (xs ++ ys) = doCommands env (doCommands env c xs) ys := by
  simp [doCommands, List.foldl_append]

theorem mailOp_keeps (env : Env) (sender : String) : KeepsBookkeeping (mailOp env sender) := by
  intro x
  simp [mailOp, Env.call]

theorem rcptOp_keeps (env : Env) : KeepsBookkeeping (rcptOp env) := by
  intro x
  simp [rcptOp, Env.call]

/-- C1: on a session whose lastError is already set, doCommand does nothing for
every step and every action: the session it returns is the one it was given,
so the action has not run, no SetDeadline (nor any other call) has been added
to the history, and lastError and lastOperation are what they were. -/
theorem doCommand_noop_after_error (env : Env) (c : Client) (operation : Commands)
    (optCallback : SmtpOperation) (h : c.lastError ≠ none) :
    doCommand env c operation optCallback = c ∧
      (doCommand env c operation optCallback).trace = c.trace ∧
      (doCommand env c operation optCallback).lastError = c.lastError ∧
      (doCommand env c operation optCallback).lastOperation = c.lastOperation := by
  obtain ⟨e, he⟩ := Option.ne_none_iff_exists'.mp h
  have hc := doCommand_of_some env c operation optCallback e he
  rw [hc]
  exact ⟨rfl, rfl, rfl, rfl⟩

theorem doCommand_noop_after_error_witness :
    failedClient.lastError ≠ none ∧
      doCommand envOk failedClient Commands.MailFrom (mailOp envOk "a@x.com") = failedClient :=
  ⟨by simp [failedClient],
    (doCommand_noop_after_error envOk failedClient Commands.MailFrom (mailOp envOk "a@x.com")
      (by simp [failedClient])).1⟩

theorem armDeadline_of_fail (env : Env) (c : Client) (s : Commands) (d : String)
    (hd : env.fail c.trace (Call.SetDeadline (env.now c.trace + c.optTimeout)) = some d) :
    armDeadline env c s =
      { c with
        lastOperation := some s
        lastError := some (NewSmtpError Commands.Timeout d)
        trace := c.trace ++ [⟨Call.SetDeadline (env.now c.trace + c.optTimeout), some d⟩] } := by
  simp [armDeadline, Env.call, hd]

theorem armDeadline_of_ok (env : Env) (c : Client) (s : Commands)
    (hd : env.fail c.trace (Call.SetDeadline (env.now c.trace + c.optTimeout)) = none) :
    armDeadline env c s =
      { c with
        lastOperation := some s
        trace := c.trace ++ [⟨Call.SetDeadline (env.now c.trace + c.optTimeout), none⟩] } := by
  simp [armDeadline, Env.call, hd]

theorem runCallback_of_fail (c : Client) (s : Commands) (a : SmtpOperation) (e : String)
    (h : (a c).1 = some e) :
    runCallback c s a = { (a c).2 with lastError := some (NewSmtpError s e) } := by
  simp [runCallback, h]

theorem runCallback_of_ok (c : Client) (s : Commands) (a : SmtpOperation)
    (h : (a c).1 = none) : runCallback c s a = (a c).2 := by
  simp [runCallback, h]

/-- C4: on a session with no recorded error, when arming the deadline fails
with cause d, doCommand still runs the action, once, on the session in which
the step is noted, the failed SetDeadline is logged and {Timeout, d} is
recorded: the session returned is the one the action returns, with {s, e}
recorded over it when the action fails with e.  So lastError ends as {s, e}
when the action fails with e and, the action leaving the bookkeeping fields
alone as every closure of client.go does, as {Timeout, d} when it succeeds,
with lastOperation at s in both cases. -/
theorem doCommand_deadline_failure (env : Env) (c : Client) (s : Commands)
    (optCallback : SmtpOperation) (d : String)
    (hclean : c.lastError = none)
    (hd : env.fail c.trace (Call.SetDeadline (env.now c.trace + c.optTimeout)) = some d) :
    armDeadline env c s =
        { c with
          lastOperation := some s
          lastError := some (NewSmtpError Commands.Timeout d)
          trace := c.trace ++ [⟨Call.SetDeadline (env.now c.trace + c.optTimeout), some d⟩] } ∧
      ((optCallback (armDeadline env c s)).1 = none →
        doCommand env c s optCallback = (optCallback (armDeadline env c s)).2) ∧
      (∀ e, (optCallback (armDeadline env c s)).1 = some e →
        doCommand env c s optCallback =
            { (optCallback (armDeadline env c s)).2 with lastError := some (NewSmtpError s e) } ∧
          (doCommand env c s optCallback).lastError = some (NewSmtpError s e)) ∧
      (KeepsBookkeeping optCallback →
        ((optCallback (armDeadline env c s)).1 = none →
          (doCommand env c s optCallback).lastError =
            some (NewSmtpError Commands.Timeout d)) ∧
        (doCommand env c s optCallback).lastOperation = some s) := by
  have harm := armDeadline_of_fail env c s d hd
  have hdo := doCommand_of_none env c s optCallback hclean
  have hE : (armDeadline env c s).lastError = some (NewSmtpError Commands.Timeout d) := by
    rw [harm]
  have hO : (armDeadline env c s).lastOperation = some s := by
    rw [harm]
  refine ⟨harm, ?_, ?_, ?_⟩
  · intro hok
    rw [hdo, runCallback_of_ok (armDeadline env c s) s optCallback hok]
  · intro e he
    rw [hdo, runCallback_of_fail (armDeadline env c s) s optCallback e he]
    exact ⟨rfl, rfl⟩
  · intro hkeep
    have hk := hkeep (armDeadline env c s)
    rw [hdo]
    refine ⟨?_, ?_⟩
    · intro hok
      rw [runCallback_of_ok (armDeadline env c s) s optCallback hok]
      exact hk.1.trans hE
    · cases hres : (optCallback (armDeadline env c s)).1 with
      | none =>
        rw [runCallback_of_ok _ s optCallback hres]
        exact hk.2.trans hO
      | some e =>
        rw [runCallback_of_fail _ s optCallback e hres]
        exact hk.2.trans hO

theorem doCommand_deadline_failure_witness :
    (doCommand envDeadlineAndSender freshClient Commands.MailFrom
        (mailOp envDeadlineAndSender "a@x.com")).lastError =
        some (NewSmtpError Commands.MailFrom "sender rejected") ∧
      (doCommand envDeadlineAndSender freshClient Commands.RcptTo
        (rcptOp envDeadlineAndSender)).lastError =
        some (NewSmtpError Commands.Timeout "deadline") ∧
      (doCommand envDeadlineAndSender freshClient Commands.RcptTo
        (rcptOp envDeadlineAndSender)).lastOperation = some Commands.RcptTo :=
  ⟨((doCommand_deadline_failure envDeadlineAndSender freshClient Commands.MailFrom
        (mailOp envDeadlineAndSender "a@x.com") "deadline" rfl rfl).2.2.1
        "sender rejected" rfl).2,
    ((doCommand_deadline_failure envDeadlineAndSender freshClient Commands.RcptTo
        (rcptOp envDeadlineAndSender) "deadline" rfl rfl).2.2.2
        (rcptOp_keeps envDeadlineAndSender)).1 rfl,
    ((doCommand_deadline_failure envDeadlineAndSender freshClient Commands.RcptTo
        (rcptOp envDeadlineAndSender) "deadline" rfl rfl).2.2.2
        (rcptOp_keeps envDeadlineAndSender)).2⟩

/-- C2 fails as stated: on a fresh session where arming the deadline fails and
the sender is rejected, the one doCommand call for MailFrom first sets lastError
to {Timeout, "deadline"} (lines 69-71) and then overwrites it with the different
error {MailFrom, "sender rejected"} (lines 73-75). -/
theorem lastError_overwritten_within_call :
    (armDeadline envDeadlineAndSender freshClient Commands.MailFrom).lastError =
        some (NewSmtpError Commands.Timeout "deadline") ∧
      doCommand envDeadlineAndSender freshClient Commands.MailFrom
          (mailOp envDeadlineAndSender "a@x.com") =
        runCallback (armDeadline envDeadlineAndSender freshClient Commands.MailFrom)
          Commands.MailFrom (mailOp envDeadlineAndSender "a@x.com") ∧
      (doCommand envDeadlineAndSender freshClient Commands.MailFrom
          (mailOp envDeadlineAndSender "a@x.com")).lastError =
        some (NewSmtpError Commands.MailFrom "sender rejected") ∧
      NewSmtpError Commands.Timeout "deadline" ≠
        NewSmtpError Commands.MailFrom "sender rejected" := by
  refine ⟨rfl, rfl, rfl, ?_⟩
  simp [NewSmtpError]

/-- C2, amended: lastError is write-once from one doCommand call to the next.
For every sequence of doCommand calls and every environment, once the calls
made so far have left lastError set, every further call leaves the whole
session, lastError included, as it is.  The only overwrite there is happens
inside the call that first records an error: when that call, made on a session
without error with an action that keeps the bookkeeping fields, has an error
e1 after arming and a different error e2 at its end, then e1 is the Timeout
error of the failed arming and e2 is the error of that same step, whose action
failed with cause e2.Err. -/
theorem lastError_write_once_between_calls (env : Env) (c : Client)
    (before after : List (Commands × SmtpOperation)) (e : SmtpError)
    (h : (doCommands env c before).lastError = some e) :
    doCommands env c (before ++ after) = doCommands env c before ∧
      (doCommands env c (before ++ after)).lastError = some e ∧
      ∀ (x : Client) (s : Commands) (a : SmtpOperation) (e1 e2 : SmtpError),
        x.lastError = none → KeepsBookkeeping a →
        (armDeadline env x s).lastError = some e1 →
        (doCommand env x s a).lastError = some e2 → e1 ≠ e2 →
        e1.Command = Commands.Timeout ∧
          env.fail x.trace (Call.SetDeadline (env.now x.trace + x.optTimeout)) = some e1.Err ∧
          e2.Command = s ∧ (a (armDeadline env x s)).1 = some e2.Err := by
  have hno : doCommands env c (before ++ after) = doCommands env c before := by
    rw [doCommands_append]
    exact doCommands_of_some env after _ e h
  refine ⟨hno, by rw [hno]; exact h, ?_⟩
  intro x s a e1 e2 hx hkeep h1 h2 hne
  have hk := hkeep (armDeadline env x s)
  rw [doCommand_of_none env x s a hx] at h2
  cases hd : env.fail x.trace (Call.SetDeadline (env.now x.trace + x.optTimeout)) with
  | none =>
    rw [armDeadline_of_ok env x s hd] at h1
    simp [hx] at h1
  | some d =>
    have harm := armDeadline_of_fail env x s d hd
    have hE : (armDeadline env x s).lastError = some (NewSmtpError Commands.Timeout d) := by
      rw [harm]
    have he1 : e1 = NewSmtpError Commands.Timeout d := by
      rw [hE] at h1
      exact (Option.some.inj h1).symm
    cases hres : (a (armDeadline env x s)).1 with
    | none =>
      rw [runCallback_of_ok _ s a hres, hk.1, h1] at h2
      exact absurd (Option.some.inj h2) hne
    | some err =>
      rw [runCallback_of_fail _ s a err hres] at h2
      have he2 : e2 = NewSmtpError s err := (Option.some.inj h2).symm
      subst he1 he2
      exact ⟨rfl, rfl, rfl, rfl⟩

theorem lastError_write_once_between_calls_witness :
    (doCommands envDeadlineAndSender freshClient
        [(Commands.MailFrom, mailOp envDeadlineAndSender "a@x.com")]).lastError =
        some (NewSmtpError Commands.MailFrom "sender rejected") ∧
      (doCommands envDeadlineAndSender freshClient
        ([(Commands.MailFrom, mailOp envDeadlineAndSender "a@x.com")] ++
          [(Commands.RcptTo, rcptOp envDeadlineAndSender)])).lastError =
        some (NewSmtpError Commands.MailFrom "sender rejected") :=
  ⟨rfl,
    (lastError_write_once_between_calls envDeadlineAndSender freshClient
      [(Commands.MailFrom, mailOp envDeadlineAndSender "a@x.com")]
      [(Commands.RcptTo, rcptOp envDeadlineAndSender)]
      (NewSmtpError Commands.MailFrom "sender rejected") rfl).2.1⟩

/-! ## The TLS upgrade -/

theorem setTls_of_unsupported (env : Env) (c : Client)
    (h : env.extension c.trace "STARTTLS" = false) :
    setTls env c = (none, record c (Call.Extension "STARTTLS")) := by
  simp [setTls, h]

theorem setTls_of_supported (env : Env) (c : Client)
    (h : env.extension c.trace "STARTTLS" = true) :
    (setTls env c).1 =
      env.fail (getClientTLSConfig env (record c (Call.Extension "STARTTLS")) c.localName).2.trace
        (Call.StartTLS
          { (getClientTLSConfig env (record c (Call.Extension "STARTTLS")) c.localName).1 with
            ServerName := c.server.Server
            MinVersion := VersionTLS11 }) := by
  have hs : ∀ x : Client, (getClientTLSConfig env x c.localName).2.server = x.server := by
    intro x
    unfold getClientTLSConfig
    cases x.tlsGenerator <;> simp [GetTlsClientConfig, record]
  have h1 := hs (record c (Call.Extension "STARTTLS"))
  simp only [record] at h1
  simp only [setTls, h, Env.call, record, h1]
  simp only [Bool.not_true, Bool.false_eq_true, if_false]
  split <;> simp_all

theorem setTls_keeps (env : Env) : KeepsBookkeeping (setTlsOp env) := by
  intro x
  have hs : ∀ y : Client, (getClientTLSConfig env y x.localName).2.lastError = y.lastError ∧
      (getClientTLSConfig env y x.localName).2.lastOperation = y.lastOperation := by
    intro y
    unfold getClientTLSConfig
    cases y.tlsGenerator <;> simp [GetTlsClientConfig, record]
  have h1 := hs (record x (Call.Extension "STARTTLS"))
  simp only [record] at h1
  simp only [setTlsOp, setTls, Env.call, record]
  split
  · simp
  · split <;> simp [h1.1, h1.2]

/-- C7: setTls fails exactly when the server advertises STARTTLS and the
StartTLS handshake fails, and its error is then the cause of the handshake,
unchanged.  When STARTTLS is not advertised setTls succeeds having only asked
for the extension: tlsGenerator is what it was, and no generator, no TLS
configuration and no handshake appear in the history.  Run through doCommand
on a session without recorded error, the step then leaves lastOperation at
StartTls and lastError as arming the deadline left it, that is unset when the
deadline was armed. -/
theorem setTls_fail_open_fail_closed (env : Env) (c : Client) :
    (∀ e, (setTls env c).1 = some e ↔
        env.extension c.trace "STARTTLS" = true ∧
          env.fail
            (getClientTLSConfig env (record c (Call.Extension "STARTTLS")) c.localName).2.trace
            (Call.StartTLS
              { (getClientTLSConfig env (record c (Call.Extension "STARTTLS")) c.localName).1 with
                ServerName := c.server.Server
                MinVersion := VersionTLS11 }) = some e) ∧
      (env.extension c.trace "STARTTLS" = false →
        (setTls env c).1 = none ∧
          (setTls env c).2.tlsGenerator = c.tlsGenerator ∧
          (setTls env c).2.trace = c.trace ++ [⟨Call.Extension "STARTTLS", none⟩]) ∧
      (c.lastError = none →
        env.extension (armDeadline env c Commands.StartTls).trace "STARTTLS" = false →
        (doCommand env c Commands.StartTls (setTlsOp env)).lastOperation =
            some Commands.StartTls ∧
          (doCommand env c Commands.StartTls (setTlsOp env)).lastError =
            (armDeadline env c Commands.StartTls).lastError ∧
          (env.fail c.trace (Call.SetDeadline (env.now c.trace + c.optTimeout)) = none →
            (doCommand env c Commands.StartTls (setTlsOp env)).lastError = none)) := by
  refine ⟨?_, ?_, ?_⟩
  · intro e
    cases hext : env.extension c.trace "STARTTLS" with
    | false => simp [setTls_of_unsupported env c hext]
    | true => simp [setTls_of_supported env c hext]
  · intro hext
    rw [setTls_of_unsupported env c hext]
    exact ⟨rfl, rfl, rfl⟩
  · intro hclean hext
    have hres : (setTlsOp env (armDeadline env c Commands.StartTls)).1 = none := by
      show (setTls env _).1 = none
      rw [setTls_of_unsupported env _ hext]
    have hk := setTls_keeps env (armDeadline env c Commands.StartTls)
    rw [doCommand_of_none env c _ _ hclean, runCallback_of_ok _ _ _ hres]
    refine ⟨?_, hk.1, ?_⟩
    · rw [hk.2]
      simp only [armDeadline, Env.call]
      split <;> rfl
    · intro hd
      rw [hk.1, armDeadline_of_ok env c _ hd]
      exact hclean

theorem setTls_fail_open_fail_closed_witness :
    (setTls envOk freshClient).1 = none ∧
      (setTls envOk freshClient).2.tlsGenerator = none ∧
      (doCommand envOk freshClient Commands.StartTls (setTlsOp envOk)).lastOperation =
        some Commands.StartTls ∧
      (doCommand envOk freshClient Commands.StartTls (setTlsOp envOk)).lastError = none :=
  ⟨((setTls_fail_open_fail_closed envOk freshClient).2.1 rfl).1,
    ((setTls_fail_open_fail_closed envOk freshClient).2.1 rfl).2.1,
    ((setTls_fail_open_fail_closed envOk freshClient).2.2 rfl rfl).1,
    ((setTls_fail_open_fail_closed envOk freshClient).2.2 rfl rfl).2.2 rfl⟩

theorem TlsStep.stay (x : Client) : TlsStep x x :=
  ⟨⟨[], by simp, by simp [newGeneratorCount]⟩, fun _ h => h⟩

theorem TlsStep.andThen {x y z : Client} (h1 : TlsStep x y) (h2 : TlsStep y z) : TlsStep x z := by
  obtain ⟨⟨a, ha, hca⟩, hg1⟩ := h1
  obtain ⟨⟨b, hb, hcb⟩, hg2⟩ := h2
  refine ⟨⟨a ++ b, by rw [hb, ha, List.append_assoc], ?_⟩, fun g h => hg2 g (hg1 g h)⟩
  simp only [newGeneratorCount, List.countP_append] at *
  omega

theorem TlsStep.ofRecord (x : Client) (k : Call) (hk : isNewGenerator ⟨k, none⟩ = false) :
    TlsStep x (record x k) := by
  refine ⟨⟨[⟨k, none⟩], rfl, ?_⟩, fun _ h => h⟩
  simp [newGeneratorCount, List.countP_cons, hk, generatorsLeft, MailSender.record]

theorem TlsStep.ofCall (env : Env) (x : Client) (k : Call)
    (hk : ∀ r, isNewGenerator ⟨k, r⟩ = false) : TlsStep x (env.call x k).2 := by
  refine ⟨⟨[⟨k, env.fail x.trace k⟩], rfl, ?_⟩, fun _ h => h⟩
  simp [newGeneratorCount, List.countP_cons, hk, generatorsLeft, Env.call]

theorem getClientTLSConfig_of_none (env : Env) (c : Client) (commonName : String)
    (h : c.tlsGenerator = none) :
    getClientTLSConfig env c commonName =
      ({ generator := ⟨env.now c.trace, generatorValidity⟩
         commonName := commonName
         ServerName := ""
         MinVersion := 0 },
        { c with
          tlsGenerator := some ⟨env.now c.trace, generatorValidity⟩
          trace := c.trace ++ [⟨Call.NewGenerator (env.now c.trace) generatorValidity, none⟩,
            ⟨Call.GetTlsClientConfig commonName, none⟩] }) := by
  simp [getClientTLSConfig, h, GetTlsClientConfig, record]

theorem getClientTLSConfig_of_some (env : Env) (c : Client) (commonName : String)
    (g : CertificateGenerator) (h : c.tlsGenerator = some g) :
    getClientTLSConfig env c commonName =
      ({ generator := g, commonName := commonName, ServerName := "", MinVersion := 0 },
        record c (Call.GetTlsClientConfig commonName)) := by
  simp [getClientTLSConfig, h, GetTlsClientConfig]

theorem getClientTLSConfig_step (env : Env) (c : Client) (commonName : String) :
    TlsStep c (getClientTLSConfig env c commonName).2 := by
  cases h : c.tlsGenerator with
  | none =>
    rw [getClientTLSConfig_of_none env c commonName h]
    refine ⟨⟨_, rfl, ?_⟩, ?_⟩
    · simp [newGeneratorCount, List.countP_cons, isNewGenerator, generatorsLeft, h]
    · intro g hg
      rw [h] at hg
      exact absurd hg (by simp)
  | some g =>
    rw [getClientTLSConfig_of_some env c commonName g h]
    exact TlsStep.ofRecord c _ rfl

theorem setTls_step (env : Env) (c : Client) : TlsStep c (setTls env c).2 := by
  have h0 : TlsStep c (record c (Call.Extension "STARTTLS")) := TlsStep.ofRecord c _ rfl
  have h1 := getClientTLSConfig_step env (record c (Call.Extension "STARTTLS")) c.localName
  simp only [setTls]
  split
  · exact h0
  · simp only [record] at h0 h1
    simp only [record]
    split
    · exact (h0.andThen h1).andThen
        ((TlsStep.ofCall env _ (Call.StartTLS _) (fun _ => rfl)).andThen
          (TlsStep.ofRecord _ (Call.Log _) rfl))
    · exact (h0.andThen h1).andThen
        ((TlsStep.ofCall env _ (Call.StartTLS _) (fun _ => rfl)).andThen
          ((TlsStep.ofRecord _ Call.TLSConnectionState rfl).andThen
            (TlsStep.ofRecord _ (Call.Log _) rfl)))

theorem TlsUse.run_step (env : Env) (c : Client) (u : TlsUse) : TlsStep c (u.run env c) := by
  cases u with
  | setTls => exact setTls_step env c
  | getClientTLSConfig commonName => exact getClientTLSConfig_step env c commonName

theorem runTlsUses_step (env : Env) (uses : List TlsUse) :
    ∀ c : Client, TlsStep c (runTlsUses env c uses) := by
  induction uses with
  | nil => intro c; exact TlsStep.stay c
  | cons u rest ih =>
    intro c
    exact (TlsUse.run_step env c u).andThen (ih (u.run env c))

theorem runTlsUses_append (env : Env) (c : Client) (xs ys : List TlsUse) :
    runTlsUses env c (xs ++ ys) = runTlsUses env (runTlsUses env c xs) ys := by
  simp [runTlsUses, List.foldl_append]

/-- C8: for every session and every sequence of setTls and getClientTLSConfig
calls on it, the history gains at most one call of tlsgenerator.NewClient, and
none when a generator is already stored.  A call of getClientTLSConfig on a
session without generator calls the constructor once, stores the generator
and builds the configuration from it; on a session with a stored generator it
calls no constructor and builds the configuration from the stored one.  Once
a generator is stored, every later call keeps that same generator and adds no
constructor call. -/
theorem tlsGenerator_created_at_most_once (env : Env) (c : Client) (uses : List TlsUse) :
    (∃ added, (runTlsUses env c uses).trace = c.trace ++ added ∧
        newGeneratorCount added ≤ 1 ∧ (c.tlsGenerator ≠ none → newGeneratorCount added = 0)) ∧
      (∀ commonName, c.tlsGenerator = none →
        (getClientTLSConfig env c commonName).2.tlsGenerator =
            some ⟨env.now c.trace, generatorValidity⟩ ∧
          (getClientTLSConfig env c commonName).1.generator =
            ⟨env.now c.trace, generatorValidity⟩ ∧
          (getClientTLSConfig env c commonName).2.trace =
            c.trace ++ [⟨Call.NewGenerator (env.now c.trace) generatorValidity, none⟩,
              ⟨Call.GetTlsClientConfig commonName, none⟩]) ∧
      (∀ commonName g, c.tlsGenerator = some g →
        (getClientTLSConfig env c commonName).2.tlsGenerator = some g ∧
          (getClientTLSConfig env c commonName).1.generator = g ∧
          (getClientTLSConfig env c commonName).2.trace =
            c.trace ++ [⟨Call.GetTlsClientConfig commonName, none⟩]) ∧
      (∀ later g, (runTlsUses env c uses).tlsGenerator = some g →
        (runTlsUses env c (uses ++ later)).tlsGenerator = some g ∧
          ∃ added, (runTlsUses env c (uses ++ later)).trace =
              (runTlsUses env c uses).trace ++ added ∧ newGeneratorCount added = 0) := by
  refine ⟨?_, ?_, ?_, ?_⟩
  · obtain ⟨⟨added, hadd, hcount⟩, _⟩ := runTlsUses_step env uses c
    refine ⟨added, hadd, ?_, ?_⟩
    · have : generatorsLeft c ≤ 1 := by
        unfold generatorsLeft
        split <;> simp
      omega
    · intro hne
      have : generatorsLeft c = 0 := by
        unfold generatorsLeft
        split
        · contradiction
        · rfl
      omega
  · intro commonName h
    rw [getClientTLSConfig_of_none env c commonName h]
    exact ⟨rfl, rfl, rfl⟩
  · intro commonName g h
    rw [getClientTLSConfig_of_some env c commonName g h]
    exact ⟨h, rfl, rfl⟩
  · intro later g h
    rw [runTlsUses_append]
    obtain ⟨⟨added, hadd, hcount⟩, hkeep⟩ := runTlsUses_step env later (runTlsUses env c uses)
    refine ⟨hkeep g h, added, hadd, ?_⟩
    have : generatorsLeft (runTlsUses env c uses) = 0 := by
      unfold generatorsLeft
      rw [h]
    omega

theorem tlsGenerator_created_at_most_once_witness :
    (runTlsUses envTls freshClient [TlsUse.setTls]).tlsGenerator = some ⟨0, generatorValidity⟩ ∧
      (runTlsUses envTls freshClient
        ([TlsUse.setTls] ++ [TlsUse.setTls, TlsUse.getClientTLSConfig "other"])).tlsGenerator =
        some ⟨0, generatorValidity⟩ ∧
      newGeneratorCount (runTlsUses envTls freshClient
        ([TlsUse.setTls] ++ [TlsUse.setTls, TlsUse.getClientTLSConfig "other"])).trace = 1 :=
  ⟨rfl,
    ((tlsGenerator_created_at_most_once envTls freshClient [TlsUse.setTls]).2.2.2
      [TlsUse.setTls, TlsUse.getClientTLSConfig "other"] ⟨0, generatorValidity⟩ rfl).1,
    by decide⟩

/-! ## Construction -/

/-- C9: NewClient reports failures by phase.  When the transport connect fails
with cause e, it returns no client and {Timeout, e}, and the connect is the
only call made: smtp.NewClient is not invoked.  When the connect succeeds and
smtp.NewClient fails with cause e, it returns no client and {Connection, e}.
When both succeed it returns no error and a session that holds the connection
and the client obtained, the given localName, server and per-step timeout,
with lastError, lastOperation and tlsGenerator unset. -/
theorem NewClient_reports_by_phase (env : Env) (world : List Event) (server : TransportServer)
    (localName : String) (connTimeout optTimeout : Int) :
    (∀ e, env.fail world (Call.Connect server.Server connTimeout) = some e →
        NewClient env world server localName connTimeout optTimeout =
          { client := none
            err := some (NewSmtpError Commands.Timeout e)
            world := world ++ [⟨Call.Connect server.Server connTimeout, some e⟩] }) ∧
      (env.fail world (Call.Connect server.Server connTimeout) = none →
        ∀ e, env.fail (world ++ [⟨Call.Connect server.Server connTimeout, none⟩])
            (Call.SmtpNewClient (env.conn world) server.Server) = some e →
        NewClient env world server localName connTimeout optTimeout =
          { client := none
            err := some (NewSmtpError Commands.Connection e)
            world := world ++ [⟨Call.Connect server.Server connTimeout, none⟩] ++
              [⟨Call.SmtpNewClient (env.conn world) server.Server, some e⟩] }) ∧
      (env.fail world (Call.Connect server.Server connTimeout) = none →
        env.fail (world ++ [⟨Call.Connect server.Server connTimeout, none⟩])
            (Call.SmtpNewClient (env.conn world) server.Server) = none →
        NewClient env world server localName connTimeout optTimeout =
          { client := some
              { smtpClient :=
                  env.smtpClient (world ++ [⟨Call.Connect server.Server connTimeout, none⟩])
                server := server
                localName := localName
                tlsGenerator := none
                optTimeout := optTimeout
                connection := env.conn world
                lastError := none
                lastOperation := none
                trace := world ++ [⟨Call.Connect server.Server connTimeout, none⟩] ++
                  [⟨Call.SmtpNewClient (env.conn world) server.Server, none⟩] }
            err := none
            world := world ++ [⟨Call.Connect server.Server connTimeout, none⟩] ++
              [⟨Call.SmtpNewClient (env.conn world) server.Server, none⟩] }) := by
  refine ⟨?_, ?_, ?_⟩
  · intro e h
    simp [NewClient, h]
  · intro h e h2
    simp [NewClient, h, h2]
  · intro h h2
    simp [NewClient, h, h2]

theorem NewClient_reports_by_phase_witness :
    NewClient envRefused [] sampleServer "probe.local" 5 30 =
        { client := none
          err := some (NewSmtpError Commands.Timeout "connection refused")
          world := [⟨Call.Connect "mx.example.org" 5, some "connection refused"⟩] } ∧
      NewClient envOk [] sampleServer "probe.local" 5 30 =
        { client := some { freshClient with
            trace := [⟨Call.Connect "mx.example.org" 5, none⟩,
              ⟨Call.SmtpNewClient 1 "mx.example.org", none⟩] }
          err := none
          world := [⟨Call.Connect "mx.example.org" 5, none⟩,
            ⟨Call.SmtpNewClient 1 "mx.example.org", none⟩] } :=
  ⟨(NewClient_reports_by_phase envRefused [] sampleServer "probe.local" 5 30).1
      "connection refused" rfl,
    (NewClient_reports_by_phase envOk [] sampleServer "probe.local" 5 30).2.2 rfl rfl⟩

/-! ## Histories -/

theorem AddsOnly.nothing (q : Event → Prop) (x : Client) : AddsOnly q x x :=
  ⟨[], by simp, by simp⟩

theorem AddsOnly.followedBy {q : Event → Prop} {x y z : Client} (h1 : AddsOnly q x y)
    (h2 : AddsOnly q y z) : AddsOnly q x z := by
  obtain ⟨a, ha, hqa⟩ := h1
  obtain ⟨b, hb, hqb⟩ := h2
  refine ⟨a ++ b, by rw [hb, ha, List.append_assoc], ?_⟩
  intro e he
  rcases List.mem_append.mp he with h | h
  · exact hqa e h
  · exact hqb e h

theorem AddsOnly.recorded (q : Event → Prop) (x : Client) (k : Call) (hk : q ⟨k, none⟩) :
    AddsOnly q x (record x k) := by
  refine ⟨[⟨k, none⟩], rfl, ?_⟩
  intro e he
  rw [List.mem_singleton.mp he]
  exact hk

theorem AddsOnly.called (q : Event → Prop) (env : Env) (x : Client) (k : Call)
    (hk : ∀ r, q ⟨k, r⟩) : AddsOnly q x (env.call x k).2 := by
  refine ⟨[⟨k, env.fail x.trace k⟩], rfl, ?_⟩
  intro e he
  rw [List.mem_singleton.mp he]
  exact hk _

theorem AddsOnly.mono {q q2 : Event → Prop} {x y : Client} (h : AddsOnly q x y)
    (hq : ∀ e, q e → q2 e) : AddsOnly q2 x y := by
  obtain ⟨a, ha, hqa⟩ := h
  exact ⟨a, ha, fun e he => hq e (hqa e he)⟩

theorem getClientTLSConfig_adds (env : Env) (c : Client) (commonName : String) :
    AddsOnly (fun e => tlsInternal e.call = true) c (getClientTLSConfig env c commonName).2 := by
  cases h : c.tlsGenerator with
  | none =>
    rw [getClientTLSConfig_of_none env c commonName h]
    refine ⟨_, rfl, ?_⟩
    intro e he
    simp only [List.mem_cons, List.mem_singleton, List.not_mem_nil, or_false] at he
    rcases he with h1 | h1 <;> subst h1 <;> rfl
  | some g =>
    rw [getClientTLSConfig_of_some env c commonName g h]
    exact AddsOnly.recorded (fun e => tlsInternal e.call = true) c _ rfl

theorem setTls_adds (env : Env) (c : Client) :
    AddsOnly (fun e => tlsInternal e.call = true) (record c (Call.Extension "STARTTLS"))
      (setTls env c).2 := by
  have h1 := getClientTLSConfig_adds env (record c (Call.Extension "STARTTLS")) c.localName
  simp only [setTls]
  split
  · exact AddsOnly.nothing _ _
  · simp only [record] at h1
    simp only [record]
    split
    · exact h1.followedBy
        ((AddsOnly.called (fun e => tlsInternal e.call = true) env _ (Call.StartTLS _)
            (fun _ => rfl)).followedBy
          (AddsOnly.recorded (fun e => tlsInternal e.call = true) _ (Call.Log _) rfl))
    · exact h1.followedBy
        ((AddsOnly.called (fun e => tlsInternal e.call = true) env _ (Call.StartTLS _)
            (fun _ => rfl)).followedBy
          ((AddsOnly.recorded (fun e => tlsInternal e.call = true) _ Call.TLSConnectionState
              rfl).followedBy
            (AddsOnly.recorded (fun e => tlsInternal e.call = true) _ (Call.Log _) rfl)))

theorem dataOp_adds (env : Env) (email : Email) (c : Client) :
    AddsOnly (fun e => dataInternal e.call = true) (env.call c Call.Data).2
      (dataOp env email c).2 := by
  simp only [dataOp]
  split
  · exact AddsOnly.nothing _ _
  · split
    · exact (AddsOnly.recorded (fun e => dataInternal e.call = true) _ (Call.PrepareHeaders _)
        rfl).followedBy
        (AddsOnly.called (fun e => dataInternal e.call = true) env _ (Call.Write _)
          (fun _ => rfl))
    · exact (AddsOnly.recorded (fun e => dataInternal e.call = true) _ (Call.PrepareHeaders _)
        rfl).followedBy
        ((AddsOnly.called (fun e => dataInternal e.call = true) env _ (Call.Write _)
            (fun _ => rfl)).followedBy
          (AddsOnly.called (fun e => dataInternal e.call = true) env _ Call.WriterClose
            (fun _ => rfl)))

theorem stepsStarted_append (a b : List Event) :
    stepsStarted (a ++ b) = stepsStarted a ++ stepsStarted b := by
  simp [stepsStarted, List.filterMap_append]

theorem stepsStarted_cons_some (e : Event) (t : List Event) (s : Commands)
    (h : stepOfCall e.call = some s) : stepsStarted (e :: t) = s :: stepsStarted t := by
  simp [stepsStarted, List.filterMap_cons, h]

theorem stepsStarted_cons_none (e : Event) (t : List Event)
    (h : stepOfCall e.call = none) : stepsStarted (e :: t) = stepsStarted t := by
  simp [stepsStarted, List.filterMap_cons, h]

theorem stepsStarted_eq_nil (t : List Event) (h : ∀ e ∈ t, stepOfCall e.call = none) :
    stepsStarted t = [] := by
  induction t with
  | nil => rfl
  | cons e rest ih =>
    rw [stepsStarted_cons_none e rest (h e (List.mem_cons_self _ _))]
    exact ih (fun x hx => h x (List.mem_cons_of_mem _ hx))

theorem stepOfCall_of_tlsInternal (k : Call) (h : tlsInternal k = true) :
    stepOfCall k = none := by
  cases k <;> simp_all [tlsInternal, stepOfCall]

theorem stepOfCall_of_dataInternal (k : Call) (h : dataInternal k = true) :
    stepOfCall k = none := by
  cases k <;> simp_all [dataInternal, stepOfCall]

/-! ## The two procedures -/

theorem SendTestEmail_eq (env : Env) (c : Client) (email : Email) :
    SendTestEmail env c email =
      ((doCommands env c (sendTestEmailSteps env email)).lastError,
        (env.call (doCommands env c (sendTestEmailSteps env email)) Call.Close).2) := rfl

theorem SpoofingTest_eq (env : Env) (c : Client) (sender : String) :
    SpoofingTest env c sender =
      ((doCommands env { c with lastError := none } (spoofingSteps env sender)).lastError,
        (env.call (env.call (doCommands env { c with lastError := none }
          (spoofingSteps env sender)) Call.Close).2 Call.Quit).2) := rfl

theorem helloOp_keeps (env : Env) : KeepsBookkeeping (helloOp env) := by
  intro x
  simp [helloOp, Env.call]

theorem quitOp_keeps (env : Env) : KeepsBookkeeping (quitOp env) := by
  intro x
  simp [quitOp, Env.call]

theorem dataOp_keeps (env : Env) (email : Email) : KeepsBookkeeping (dataOp env email) := by
  intro x
  simp only [dataOp, Env.call, record]
  split
  · simp
  · split <;> simp

theorem sendTestEmailSteps_keep (env : Env) (email : Email) :
    ∀ p ∈ sendTestEmailSteps env email, KeepsBookkeeping p.2 := by
  intro p hp
  simp only [sendTestEmailSteps, List.mem_cons, List.mem_singleton, List.not_mem_nil,
    or_false] at hp
  rcases hp with h | h | h | h | h | h <;> subst h
  · exact helloOp_keeps env
  · exact setTls_keeps env
  · exact mailOp_keeps env _
  · exact rcptOp_keeps env
  · exact dataOp_keeps env email
  · exact quitOp_keeps env

theorem runUntilFailure_cons_fail (env : Env) (c : Client) (s : Commands) (a : SmtpOperation)
    (rest : List (Commands × SmtpOperation)) (e : String)
    (h : (a (armDeadline env c s)).1 = some e) :
    runUntilFailure env c ((s, a) :: rest) =
      { invoked := [s], err := some (NewSmtpError s e), session := (a (armDeadline env c s)).2 } := by
  simp [runUntilFailure, h]

theorem runUntilFailure_cons_ok (env : Env) (c : Client) (s : Commands) (a : SmtpOperation)
    (rest : List (Commands × SmtpOperation)) (h : (a (armDeadline env c s)).1 = none) :
    runUntilFailure env c ((s, a) :: rest) =
      { invoked := s :: (runUntilFailure env (a (armDeadline env c s)).2 rest).invoked
        err := (runUntilFailure env (a (armDeadline env c s)).2 rest).err
        session := (runUntilFailure env (a (armDeadline env c s)).2 rest).session } := by
  simp [runUntilFailure, h]

theorem doCommands_eq_runUntilFailure (env : Env)
    (hdl : ∀ t d, env.fail t (Call.SetDeadline d) = none)
    (steps : List (Commands × SmtpOperation)) :
    (∀ p ∈ steps, KeepsBookkeeping p.2) →
    ∀ c : Client, c.lastError = none →
      doCommands env c steps =
          { (runUntilFailure env c steps).session with
            lastError := (runUntilFailure env c steps).err } ∧
        (runUntilFailure env c steps).session.lastError = none := by
  induction steps with
  | nil =>
    intro _ c hc
    refine ⟨?_, hc⟩
    show c = { c with lastError := none }
    rw [← hc]
  | cons p rest ih =>
    intro hkeep c hc
    obtain ⟨s, a⟩ := p
    have hk := hkeep (s, a) (List.mem_cons_self _ _) (armDeadline env c s)
    have harm : (armDeadline env c s).lastError = none := by
      rw [armDeadline_of_ok env c s (hdl _ _)]
      exact hc
    have hstep : doCommands env c ((s, a) :: rest) = doCommands env (doCommand env c s a) rest :=
      rfl
    rw [hstep, doCommand_of_none env c s a hc]
    cases hres : (a (armDeadline env c s)).1 with
    | some e =>
      rw [runCallback_of_fail _ s a e hres]
      rw [doCommands_of_some env rest _ (NewSmtpError s e) rfl]
      rw [runUntilFailure_cons_fail env c s a rest e hres]
      exact ⟨rfl, hk.1.trans harm⟩
    | none =>
      rw [runCallback_of_ok _ s a hres]
      rw [runUntilFailure_cons_ok env c s a rest hres]
      exact ih (fun q hq => hkeep q (List.mem_cons_of_mem _ hq)) (a (armDeadline env c s)).2
        (hk.1.trans harm)

theorem runUntilFailure_invoked (env : Env) (steps : List (Commands × SmtpOperation)) :
    ∀ c : Client,
      (runUntilFailure env c steps).invoked =
          (steps.map Prod.fst).take (runUntilFailure env c steps).invoked.length ∧
        ((runUntilFailure env c steps).err = none →
          (runUntilFailure env c steps).invoked = steps.map Prod.fst) ∧
        (∀ e, (runUntilFailure env c steps).err = some e →
          (runUntilFailure env c steps).invoked.getLast? = some e.Command) := by
  induction steps with
  | nil =>
    intro c
    simp [runUntilFailure]
  | cons p rest ih =>
    intro c
    obtain ⟨s, a⟩ := p
    cases hres : (a (armDeadline env c s)).1 with
    | some e =>
      rw [runUntilFailure_cons_fail env c s a rest e hres]
      simp [NewSmtpError]
    | none =>
      obtain ⟨h1, h2, h3⟩ := ih (a (armDeadline env c s)).2
      rw [runUntilFailure_cons_ok env c s a rest hres]
      simp only [List.map_cons, List.length_cons, List.take_succ_cons]
      refine ⟨by rw [← h1], fun h => by rw [h2 h], ?_⟩
      intro e he
      have hlast := h3 e he
      cases hinv : (runUntilFailure env (a (armDeadline env c s)).2 rest).invoked with
      | nil => rw [hinv] at hlast; simp at hlast
      | cons y ys =>
        rw [hinv] at hlast
        rw [List.getLast?_cons_cons]
        exact hlast

theorem runUntilFailure_started (env : Env)
    (hdl : ∀ t d, env.fail t (Call.SetDeadline d) = none)
    (steps : List (Commands × SmtpOperation)) :
    (∀ p ∈ steps, Starts p.1 p.2) →
    ∀ c : Client, ∃ added,
      (runUntilFailure env c steps).session.trace = c.trace ++ added ∧
        stepsStarted added = (runUntilFailure env c steps).invoked := by
  induction steps with
  | nil =>
    intro _ c
    exact ⟨[], by simp [runUntilFailure], rfl⟩
  | cons p rest ih =>
    intro hst c
    obtain ⟨s, a⟩ := p
    obtain ⟨first, added, hadd, hfirst, hquiet⟩ :=
      hst (s, a) (List.mem_cons_self _ _) (armDeadline env c s)
    have harm : (armDeadline env c s).trace =
        c.trace ++ [⟨Call.SetDeadline (env.now c.trace + c.optTimeout), none⟩] := by
      rw [armDeadline_of_ok env c s (hdl _ _)]
    have hown : stepsStarted
        (⟨Call.SetDeadline (env.now c.trace + c.optTimeout), none⟩ :: first :: added) = [s] := by
      rw [stepsStarted_cons_none ⟨Call.SetDeadline _, none⟩ _ rfl,
        stepsStarted_cons_some _ _ s hfirst,
        stepsStarted_eq_nil added hquiet]
    have htrace : (a (armDeadline env c s)).2.trace =
        c.trace ++ (⟨Call.SetDeadline (env.now c.trace + c.optTimeout), none⟩ :: first :: added) := by
      rw [hadd, harm]
      simp
    cases hres : (a (armDeadline env c s)).1 with
    | some e =>
      rw [runUntilFailure_cons_fail env c s a rest e hres]
      exact ⟨_, htrace, hown⟩
    | none =>
      obtain ⟨more, hmore, hmmark⟩ :=
        ih (fun q hq => hst q (List.mem_cons_of_mem _ hq)) (a (armDeadline env c s)).2
      rw [runUntilFailure_cons_ok env c s a rest hres]
      refine ⟨(⟨Call.SetDeadline (env.now c.trace + c.optTimeout), none⟩ :: first :: added) ++
        more, ?_, ?_⟩
      · show (runUntilFailure env (a (armDeadline env c s)).2 rest).session.trace = _
        rw [hmore, htrace, List.append_assoc]
      · rw [stepsStarted_append, hown, hmmark]
        rfl

theorem sendTestEmailSteps_start (env : Env) (email : Email) :
    ∀ p ∈ sendTestEmailSteps env email, Starts p.1 p.2 := by
  intro p hp
  simp only [sendTestEmailSteps, List.mem_cons, List.mem_singleton, List.not_mem_nil,
    or_false] at hp
  rcases hp with h | h | h | h | h | h <;> subst h <;> intro x
  · exact ⟨_, [], rfl, rfl, by simp⟩
  · obtain ⟨added, hadd, hq⟩ := setTls_adds env x
    refine ⟨⟨Call.Extension "STARTTLS", none⟩, added, ?_, rfl, ?_⟩
    · show (setTls env x).2.trace = _
      rw [hadd]
      simp [record]
    · intro e he
      exact stepOfCall_of_tlsInternal e.call (hq e he)
  · exact ⟨_, [], rfl, rfl, by simp⟩
  · exact ⟨_, [], rfl, rfl, by simp⟩
  · obtain ⟨added, hadd, hq⟩ := dataOp_adds env email x
    refine ⟨⟨Call.Data, env.fail x.trace Call.Data⟩, added, ?_, rfl, ?_⟩
    · rw [hadd]
      simp [Env.call]
    · intro e he
      exact stepOfCall_of_dataInternal e.call (hq e he)
  · exact ⟨_, [], rfl, rfl, by simp⟩

/-- C3: on a session without recorded error on which every deadline arming
succeeds, SendTestEmail does what the step sequence of the specification
does on the six steps Ehlo, StartTls, MailFrom, RcptTo, Data, Quit: it returns
the error of the run that stops at the first failing action, made of that
step and the cause the action returned, and no error when no action fails,
and it leaves the session of that run, closed.  The actions invoked are the
first n of the six steps, in order, all six when there is no error and ending
with the step of the error otherwise; the history shows exactly these actions
to have begun, in this order, and none after the failing one. -/
theorem SendTestEmail_first_failure_wins (env : Env) (c : Client) (email : Email)
    (hfresh : c.lastError = none)
    (hdl : ∀ t d, env.fail t (Call.SetDeadline d) = none) :
    ∀ r, r = runUntilFailure env c (sendTestEmailSteps env email) →
      (SendTestEmail env c email).1 = r.err ∧
        (SendTestEmail env c email).2 =
          (env.call { r.session with lastError := r.err } Call.Close).2 ∧
        (∃ n, n ≤ 6 ∧ r.invoked =
          [Commands.Ehlo, Commands.StartTls, Commands.MailFrom, Commands.RcptTo,
            Commands.Data, Commands.Quit].take n) ∧
        (r.err = none → r.invoked =
          [Commands.Ehlo, Commands.StartTls, Commands.MailFrom, Commands.RcptTo,
            Commands.Data, Commands.Quit]) ∧
        (∀ e, r.err = some e → r.invoked.getLast? = some e.Command) ∧
        ∃ added, (SendTestEmail env c email).2.trace = c.trace ++ added ∧
          stepsStarted added = r.invoked := by
  intro r hr
  obtain ⟨hrun, _⟩ := doCommands_eq_runUntilFailure env hdl (sendTestEmailSteps env email)
    (sendTestEmailSteps_keep env email) c hfresh
  obtain ⟨hpre, hall, hlast⟩ := runUntilFailure_invoked env (sendTestEmailSteps env email) c
  obtain ⟨added, hadd, hmark⟩ := runUntilFailure_started env hdl (sendTestEmailSteps env email)
    (sendTestEmailSteps_start env email) c
  rw [← hr] at hrun hpre hall hlast hadd hmark
  rw [SendTestEmail_eq, hrun]
  refine ⟨rfl, rfl, ⟨r.invoked.length, ?_, hpre⟩, hall, hlast, ?_⟩
  · have hlen := congrArg List.length hpre
    rw [List.length_take] at hlen
    have h6 : (List.map Prod.fst (sendTestEmailSteps env email)).length = 6 := rfl
    omega
  · refine ⟨added ++ [⟨Call.Close, env.fail (c.trace ++ added) Call.Close⟩], ?_, ?_⟩
    · simp [Env.call, hadd]
    · rw [stepsStarted_append, hmark]
      simp [stepsStarted, stepOfCall]

theorem SendTestEmail_first_failure_wins_witness :
    (SendTestEmail envSenderRejected freshClient sampleEmail).1 =
        some (NewSmtpError Commands.MailFrom "sender rejected") ∧
      (SendTestEmail envSenderRejected freshClient sampleEmail).2.trace =
        [⟨Call.SetDeadline 30, none⟩, ⟨Call.Hello "probe.local", none⟩,
          ⟨Call.SetDeadline 30, none⟩, ⟨Call.Extension "STARTTLS", none⟩,
          ⟨Call.SetDeadline 30, none⟩, ⟨Call.Mail "a@x.com", some "sender rejected"⟩,
          ⟨Call.Close, none⟩] ∧
      (runUntilFailure envSenderRejected freshClient
        (sendTestEmailSteps envSenderRejected sampleEmail)).invoked =
        [Commands.Ehlo, Commands.StartTls, Commands.MailFrom] :=
  ⟨(SendTestEmail_first_failure_wins envSenderRejected freshClient sampleEmail rfl
      (fun _ _ => rfl) _ rfl).1,
    by decide, by decide⟩

theorem spoofingSteps_keep (env : Env) (sender : String) :
    ∀ p ∈ spoofingSteps env sender, KeepsBookkeeping p.2 := by
  intro p hp
  simp only [spoofingSteps, List.mem_cons, List.mem_singleton, List.not_mem_nil,
    or_false] at hp
  rcases hp with h | h | h | h <;> subst h
  · exact helloOp_keeps env
  · exact setTls_keeps env
  · exact mailOp_keeps env _
  · exact rcptOp_keeps env

theorem armDeadline_fields (env : Env) (c : Client) (s : Commands) :
    (armDeadline env c s).server = c.server ∧ (armDeadline env c s).localName = c.localName := by
  simp only [armDeadline, Env.call]
  split <;> exact ⟨rfl, rfl⟩

theorem armDeadline_trace (env : Env) (hdl : ∀ t d, env.fail t (Call.SetDeadline d) = none)
    (c : Client) (s : Commands) :
    (armDeadline env c s).trace =
      c.trace ++ [⟨Call.SetDeadline (env.now c.trace + c.optTimeout), none⟩] := by
  rw [armDeadline_of_ok env c s (hdl _ _)]

theorem setTls_server (env : Env) (c : Client) : (setTls env c).2.server = c.server := by
  have hs : ∀ y : Client, (getClientTLSConfig env y c.localName).2.server = y.server := by
    intro y
    unfold getClientTLSConfig
    cases y.tlsGenerator <;> simp [GetTlsClientConfig, record]
  have h1 := hs (record c (Call.Extension "STARTTLS"))
  simp only [record] at h1
  simp only [setTls, Env.call, record]
  split
  · rfl
  · split <;> exact h1

/-- C5: whatever the session holds at entry, a recorded error included, and
with every deadline arming succeeding, SpoofingTest starts from the session
with the error cleared and runs Ehlo, StartTls, Mail(sender) and
Rcpt(test recipient), each after arming its deadline.  When Ehlo and StartTls
succeed, the result is {SpfFail, e} if the sender declaration fails with
cause e, it is {SpfFail, e} as well if the sender declaration succeeds and the
recipient declaration fails with cause e, and it is no error if both
succeed.  The history of the run is then exactly: a deadline and
Hello(localName), a deadline and the query for the STARTTLS extension with
the calls of the TLS upgrade, a deadline and Mail(sender), then, only when
the sender was accepted, a deadline and Rcpt(test recipient of the server),
and last the deferred Close and Quit. -/
theorem SpoofingTest_tags_both_with_SpfFail (env : Env) (c : Client) (sender : String)
    (hdl : ∀ t d, env.fail t (Call.SetDeadline d) = none) :
    ∀ h t m r,
      h = helloOp env (armDeadline env { c with lastError := none } Commands.Ehlo) →
      t = setTlsOp env (armDeadline env h.2 Commands.StartTls) →
      m = mailOp env sender (armDeadline env t.2 Commands.SpfFail) →
      r = rcptOp env (armDeadline env m.2 Commands.SpfFail) →
      h.1 = none → t.1 = none →
        (∀ e, m.1 = some e →
          (SpoofingTest env c sender).1 = some (NewSmtpError Commands.SpfFail e)) ∧
        (m.1 = none → ∀ e, r.1 = some e →
          (SpoofingTest env c sender).1 = some (NewSmtpError Commands.SpfFail e)) ∧
        (m.1 = none → r.1 = none → (SpoofingTest env c sender).1 = none) ∧
        ∃ d1 d2 d3 d4 tls rc rq,
          (∀ e ∈ tls, tlsInternal e.call = true) ∧
            (SpoofingTest env c sender).2.trace =
              c.trace ++
                ([⟨Call.SetDeadline d1, none⟩, ⟨Call.Hello c.localName, none⟩,
                    ⟨Call.SetDeadline d2, none⟩, ⟨Call.Extension "STARTTLS", none⟩] ++
                  tls ++
                  [⟨Call.SetDeadline d3, none⟩, ⟨Call.Mail sender, m.1⟩] ++
                  (match m.1 with
                    | some _ => []
                    | none =>
                      [⟨Call.SetDeadline d4, none⟩, ⟨Call.Rcpt c.server.TestEmail, r.1⟩]) ++
                  [⟨Call.Close, rc⟩, ⟨Call.Quit, rq⟩]) := by
  intro h t m r hh ht hm hr hhello htls
  obtain ⟨hrun, _⟩ := doCommands_eq_runUntilFailure env hdl (spoofingSteps env sender)
    (spoofingSteps_keep env sender) { c with lastError := none } rfl
  have hres : (SpoofingTest env c sender).1 =
      (runUntilFailure env { c with lastError := none } (spoofingSteps env sender)).err := by
    rw [SpoofingTest_eq, hrun]
  have htrace : ∀ rc rq, rc = env.fail
        (runUntilFailure env { c with lastError := none } (spoofingSteps env sender)).session.trace
        Call.Close →
      rq = env.fail
        ((runUntilFailure env { c with lastError := none }
          (spoofingSteps env sender)).session.trace ++ [⟨Call.Close, rc⟩]) Call.Quit →
      (SpoofingTest env c sender).2.trace =
        (runUntilFailure env { c with lastError := none }
          (spoofingSteps env sender)).session.trace ++ [⟨Call.Close, rc⟩, ⟨Call.Quit, rq⟩] := by
    intro rc rq hrc hrq
    subst hrc hrq
    rw [SpoofingTest_eq, hrun]
    simp [Env.call]
  -- the run passes Ehlo and StartTls
  have hstart : runUntilFailure env { c with lastError := none } (spoofingSteps env sender) =
      { invoked := Commands.Ehlo :: Commands.StartTls ::
          (runUntilFailure env t.2
            [(Commands.SpfFail, mailOp env sender), (Commands.SpfFail, rcptOp env)]).invoked
        err := (runUntilFailure env t.2
            [(Commands.SpfFail, mailOp env sender), (Commands.SpfFail, rcptOp env)]).err
        session := (runUntilFailure env t.2
            [(Commands.SpfFail, mailOp env sender), (Commands.SpfFail, rcptOp env)]).session } := by
    subst hh ht
    show runUntilFailure env { c with lastError := none }
      ((Commands.Ehlo, helloOp env) :: _) = _
    rw [runUntilFailure_cons_ok env _ Commands.Ehlo (helloOp env) _ hhello]
    rw [runUntilFailure_cons_ok env _ Commands.StartTls (setTlsOp env) _ htls]
  -- the histories of the four actions
  have hh_trace : h.2.trace = c.trace ++
      [⟨Call.SetDeadline (env.now c.trace + c.optTimeout), none⟩,
        ⟨Call.Hello c.localName, none⟩] := by
    have hf := armDeadline_fields env { c with lastError := none } Commands.Ehlo
    have ha := armDeadline_trace env hdl { c with lastError := none } Commands.Ehlo
    have h1 : h.1 = env.fail (armDeadline env { c with lastError := none } Commands.Ehlo).trace
        (Call.Hello (armDeadline env { c with lastError := none } Commands.Ehlo).localName) := by
      rw [hh]; rfl
    have h2 : h.2.trace = (armDeadline env { c with lastError := none } Commands.Ehlo).trace ++
        [⟨Call.Hello (armDeadline env { c with lastError := none } Commands.Ehlo).localName,
          h.1⟩] := by
      rw [h1, hh]; rfl
    rw [h2, hhello, ha, hf.2]
    simp
  obtain ⟨tls, htls_add, htls_q⟩ := setTls_adds env (armDeadline env h.2 Commands.StartTls)
  have ht_trace : t.2.trace = h.2.trace ++
      ([⟨Call.SetDeadline (env.now h.2.trace + h.2.optTimeout), none⟩,
        ⟨Call.Extension "STARTTLS", none⟩] ++ tls) := by
    have ha := armDeadline_trace env hdl h.2 Commands.StartTls
    have h2 : t.2.trace = (setTls env (armDeadline env h.2 Commands.StartTls)).2.trace := by
      rw [ht]; rfl
    rw [h2, htls_add]
    simp only [record, ha]
    simp
  have hm_trace : m.2.trace = t.2.trace ++
      [⟨Call.SetDeadline (env.now t.2.trace + t.2.optTimeout), none⟩,
        ⟨Call.Mail sender, m.1⟩] := by
    have ha := armDeadline_trace env hdl t.2 Commands.SpfFail
    have h1 : m.1 = env.fail (armDeadline env t.2 Commands.SpfFail).trace (Call.Mail sender) := by
      rw [hm]; rfl
    have h2 : m.2.trace = (armDeadline env t.2 Commands.SpfFail).trace ++
        [⟨Call.Mail sender, m.1⟩] := by
      rw [h1, hm]; rfl
    rw [h2, ha]
    simp
  have hserver : (armDeadline env m.2 Commands.SpfFail).server = c.server := by
    rw [(armDeadline_fields env m.2 Commands.SpfFail).1]
    have h1 : m.2.server = (armDeadline env t.2 Commands.SpfFail).server := by rw [hm]; rfl
    have h2 : t.2.server = (armDeadline env h.2 Commands.StartTls).server := by
      rw [ht]; exact setTls_server env _
    have h3 : h.2.server = (armDeadline env { c with lastError := none } Commands.Ehlo).server := by
      rw [hh]; rfl
    rw [h1, (armDeadline_fields env t.2 Commands.SpfFail).1, h2,
      (armDeadline_fields env h.2 Commands.StartTls).1, h3,
      (armDeadline_fields env { c with lastError := none } Commands.Ehlo).1]
  have hr_trace : r.2.trace = m.2.trace ++
      [⟨Call.SetDeadline (env.now m.2.trace + m.2.optTimeout), none⟩,
        ⟨Call.Rcpt c.server.TestEmail, r.1⟩] := by
    have ha := armDeadline_trace env hdl m.2 Commands.SpfFail
    have h1 : r.1 = env.fail (armDeadline env m.2 Commands.SpfFail).trace
        (Call.Rcpt (armDeadline env m.2 Commands.SpfFail).server.TestEmail) := by
      rw [hr]; rfl
    have h2 : r.2.trace = (armDeadline env m.2 Commands.SpfFail).trace ++
        [⟨Call.Rcpt (armDeadline env m.2 Commands.SpfFail).server.TestEmail, r.1⟩] := by
      rw [h1, hr]; rfl
    rw [h2, ha, hserver]
    simp
  obtain ⟨rc, rq, hT⟩ : ∃ rc rq, (SpoofingTest env c sender).2.trace =
      (runUntilFailure env { c with lastError := none }
        (spoofingSteps env sender)).session.trace ++ [⟨Call.Close, rc⟩, ⟨Call.Quit, rq⟩] :=
    ⟨_, _, htrace _ _ rfl rfl⟩
  rw [hstart] at hT
  rw [hres, hstart]
  cases hm1 : m.1 with
  | some e =>
    have hfail : (mailOp env sender (armDeadline env t.2 Commands.SpfFail)).1 = some e := by
      rw [← hm]; exact hm1
    have hrun2 := runUntilFailure_cons_fail env t.2 Commands.SpfFail (mailOp env sender)
      [(Commands.SpfFail, rcptOp env)] e hfail
    rw [← hm] at hrun2
    rw [hrun2] at hT
    rw [hrun2]
    refine ⟨?_, ?_, ?_, ?_⟩
    · intro e2 he2
      rw [Option.some.inj he2]
    · intro hno
      exact absurd hno (by simp)
    · intro hno
      exact absurd hno (by simp)
    · refine ⟨env.now c.trace + c.optTimeout, env.now h.2.trace + h.2.optTimeout,
        env.now t.2.trace + t.2.optTimeout, env.now m.2.trace + m.2.optTimeout, tls, rc, rq,
        htls_q, ?_⟩
      rw [hT]
      show m.2.trace ++ _ = _
      rw [hm_trace, ht_trace, hh_trace, hm1]
      simp
  | none =>
    have hok : (mailOp env sender (armDeadline env t.2 Commands.SpfFail)).1 = none := by
      rw [← hm]; exact hm1
    have hrun2 := runUntilFailure_cons_ok env t.2 Commands.SpfFail (mailOp env sender)
      [(Commands.SpfFail, rcptOp env)] hok
    rw [← hm] at hrun2
    have hsess : (runUntilFailure env m.2 [(Commands.SpfFail, rcptOp env)]).session = r.2 ∧
        (runUntilFailure env m.2 [(Commands.SpfFail, rcptOp env)]).err =
          r.1.map (NewSmtpError Commands.SpfFail) := by
      cases hr1 : r.1 with
      | some e =>
        have hf : (rcptOp env (armDeadline env m.2 Commands.SpfFail)).1 = some e := by
          rw [← hr]; exact hr1
        rw [runUntilFailure_cons_fail env m.2 Commands.SpfFail (rcptOp env) [] e hf, ← hr]
        exact ⟨rfl, rfl⟩
      | none =>
        have hf : (rcptOp env (armDeadline env m.2 Commands.SpfFail)).1 = none := by
          rw [← hr]; exact hr1
        rw [runUntilFailure_cons_ok env m.2 Commands.SpfFail (rcptOp env) [] hf, ← hr]
        exact ⟨rfl, rfl⟩
    rw [hrun2] at hT
    rw [hrun2]
    refine ⟨?_, ?_, ?_, ?_⟩
    · intro e2 he2
      exact absurd he2 (by simp)
    · intro _ e he
      show (runUntilFailure env m.2 [(Commands.SpfFail, rcptOp env)]).err = _
      rw [hsess.2, he]
      rfl
    · intro _ he
      show (runUntilFailure env m.2 [(Commands.SpfFail, rcptOp env)]).err = _
      rw [hsess.2, he]
      rfl
    · refine ⟨env.now c.trace + c.optTimeout, env.now h.2.trace + h.2.optTimeout,
        env.now t.2.trace + t.2.optTimeout, env.now m.2.trace + m.2.optTimeout, tls, rc, rq,
        htls_q, ?_⟩
      rw [hT]
      show (runUntilFailure env m.2 [(Commands.SpfFail, rcptOp env)]).session.trace ++ _ = _
      rw [hsess.1, hr_trace, hm_trace, ht_trace, hh_trace, hm1]
      simp

theorem SpoofingTest_tags_both_with_SpfFail_witness :
    (SpoofingTest envSenderRejected failedClient "forged@victim.example").1 =
        some (NewSmtpError Commands.SpfFail "sender rejected") ∧
      (SpoofingTest envRecipientRejected failedClient "forged@victim.example").1 =
        some (NewSmtpError Commands.SpfFail "relay denied") ∧
      (SpoofingTest envOk failedClient "forged@victim.example").1 = none ∧
      (SpoofingTest envRecipientRejected failedClient "forged@victim.example").2.trace =
        [⟨Call.SetDeadline 30, none⟩, ⟨Call.Hello "probe.local", none⟩,
          ⟨Call.SetDeadline 30, none⟩, ⟨Call.Extension "STARTTLS", none⟩,
          ⟨Call.SetDeadline 30, none⟩, ⟨Call.Mail "forged@victim.example", none⟩,
          ⟨Call.SetDeadline 30, none⟩, ⟨Call.Rcpt "probe@example.org", some "relay denied"⟩,
          ⟨Call.Close, none⟩, ⟨Call.Quit, none⟩] ∧
      (SpoofingTest envSenderRejected failedClient "forged@victim.example").2.trace =
        [⟨Call.SetDeadline 30, none⟩, ⟨Call.Hello "probe.local", none⟩,
          ⟨Call.SetDeadline 30, none⟩, ⟨Call.Extension "STARTTLS", none⟩,
          ⟨Call.SetDeadline 30, none⟩,
          ⟨Call.Mail "forged@victim.example", some "sender rejected"⟩,
          ⟨Call.Close, none⟩, ⟨Call.Quit, none⟩] :=
  ⟨(SpoofingTest_tags_both_with_SpfFail envSenderRejected failedClient "forged@victim.example"
      (fun _ _ => rfl) _ _ _ _ rfl rfl rfl rfl rfl rfl).1 "sender rejected" rfl,
    (SpoofingTest_tags_both_with_SpfFail envRecipientRejected failedClient
      "forged@victim.example" (fun _ _ => rfl) _ _ _ _ rfl rfl rfl rfl rfl rfl).2.1 rfl
      "relay denied" rfl,
    (SpoofingTest_tags_both_with_SpfFail envOk failedClient "forged@victim.example"
      (fun _ _ => rfl) _ _ _ _ rfl rfl rfl rfl rfl rfl).2.2.1 rfl rfl,
    by decide, by decide⟩

/-- C6 fails as stated for SendTestEmail: on a server where all six steps
succeed, the Quit step completes, which closes the connection, and the
deferred Close is then called on the closed connection, so the connection is
closed twice on the success path. -/
theorem SendTestEmail_closes_twice_on_success :
    (SendTestEmail envClosing freshClient sampleEmail).1 = none ∧
      connectionCloses (SendTestEmail envClosing freshClient sampleEmail).2.trace = 2 ∧
      (SendTestEmail envClosing freshClient sampleEmail).2.trace.drop 14 =
        [⟨Call.Quit, none⟩, ⟨Call.Close, some "use of closed network connection"⟩] := by
  decide

theorem counts_of_notCloseNorQuit (t : List Event) (h : ∀ e ∈ t, NotCloseNorQuit e) :
    closeCalls t = 0 ∧ quitCalls t = 0 ∧ completedQuits t = 0 := by
  refine ⟨?_, ?_, ?_⟩
  · rw [closeCalls, List.countP_eq_zero]
    intro e he
    have hq := (h e he).1
    unfold isCloseCall
    split
    · contradiction
    · simp
  · rw [quitCalls, List.countP_eq_zero]
    intro e he
    have hq := (h e he).2
    unfold isQuitCall
    split
    · contradiction
    · simp
  · rw [completedQuits, List.countP_eq_zero]
    intro e he
    have hq := (h e he).2
    unfold quitCompleted
    split
    · contradiction
    · simp

theorem notCloseNorQuit_of_tlsInternal (e : Event) (h : tlsInternal e.call = true) :
    NotCloseNorQuit e := by
  unfold NotCloseNorQuit
  constructor <;> intro hk <;> rw [hk] at h <;> simp [tlsInternal] at h

theorem notCloseNorQuit_of_dataInternal (e : Event) (h : dataInternal e.call = true) :
    NotCloseNorQuit e := by
  unfold NotCloseNorQuit
  constructor <;> intro hk <;> rw [hk] at h <;> simp [dataInternal] at h

theorem doCommand_adds (q : Event → Prop) (env : Env) (s : Commands) (a : SmtpOperation)
    (hq : ∀ d r, q ⟨Call.SetDeadline d, r⟩) (ha : ∀ x, AddsOnly q x (a x).2) (c : Client) :
    AddsOnly q c (doCommand env c s a) := by
  cases hc : c.lastError with
  | some e =>
    rw [doCommand_of_some env c s a e hc]
    exact AddsOnly.nothing q c
  | none =>
    rw [doCommand_of_none env c s a hc]
    have harm : AddsOnly q c (armDeadline env c s) := by
      refine ⟨[⟨Call.SetDeadline (env.now c.trace + c.optTimeout),
        env.fail c.trace (Call.SetDeadline (env.now c.trace + c.optTimeout))⟩], ?_, ?_⟩
      · simp only [armDeadline, Env.call]
        split <;> rfl
      · intro e he
        rw [List.mem_singleton.mp he]
        exact hq _ _
    have hrun : AddsOnly q (armDeadline env c s) (runCallback (armDeadline env c s) s a) := by
      obtain ⟨added, hadd, hall⟩ := ha (armDeadline env c s)
      refine ⟨added, ?_, hall⟩
      simp only [runCallback]
      split <;> exact hadd
    exact harm.followedBy hrun

theorem doCommands_adds (q : Event → Prop) (env : Env)
    (hq : ∀ d r, q ⟨Call.SetDeadline d, r⟩) (steps : List (Commands × SmtpOperation)) :
    (∀ p ∈ steps, ∀ x, AddsOnly q x (p.2 x).2) →
    ∀ c : Client, AddsOnly q c (doCommands env c steps) := by
  induction steps with
  | nil => intro _ c; exact AddsOnly.nothing q c
  | cons p rest ih =>
    intro ha c
    exact (doCommand_adds q env p.1 p.2 hq (ha p (List.mem_cons_self _ _)) c).followedBy
      (ih (fun r hr => ha r (List.mem_cons_of_mem _ hr)) _)

theorem helloOp_quiet (env : Env) (x : Client) : AddsOnly NotCloseNorQuit x (helloOp env x).2 :=
  AddsOnly.called NotCloseNorQuit env x (Call.Hello x.localName)
    (fun _ => ⟨by simp, by simp⟩)

theorem mailOp_quiet (env : Env) (sender : String) (x : Client) :
    AddsOnly NotCloseNorQuit x (mailOp env sender x).2 :=
  AddsOnly.called NotCloseNorQuit env x (Call.Mail sender) (fun _ => ⟨by simp, by simp⟩)

theorem rcptOp_quiet (env : Env) (x : Client) : AddsOnly NotCloseNorQuit x (rcptOp env x).2 :=
  AddsOnly.called NotCloseNorQuit env x (Call.Rcpt x.server.TestEmail)
    (fun _ => ⟨by simp, by simp⟩)

theorem setTlsOp_quiet (env : Env) (x : Client) :
    AddsOnly NotCloseNorQuit x (setTlsOp env x).2 :=
  (AddsOnly.recorded NotCloseNorQuit x (Call.Extension "STARTTLS") ⟨by simp, by simp⟩).followedBy
    ((setTls_adds env x).mono (fun e h => notCloseNorQuit_of_tlsInternal e h))

theorem dataOp_quiet (env : Env) (email : Email) (x : Client) :
    AddsOnly NotCloseNorQuit x (dataOp env email x).2 :=
  (AddsOnly.called NotCloseNorQuit env x Call.Data (fun _ => ⟨by simp, by simp⟩)).followedBy
    ((dataOp_adds env email x).mono (fun e h => notCloseNorQuit_of_dataInternal e h))

theorem spoofingSteps_quiet (env : Env) (sender : String) :
    ∀ p ∈ spoofingSteps env sender, ∀ x, AddsOnly NotCloseNorQuit x (p.2 x).2 := by
  intro p hp
  simp only [spoofingSteps, List.mem_cons, List.mem_singleton, List.not_mem_nil,
    or_false] at hp
  rcases hp with h | h | h | h <;> subst h
  · exact helloOp_quiet env
  · exact setTlsOp_quiet env
  · exact mailOp_quiet env sender
  · exact rcptOp_quiet env

theorem quit_step (env : Env) (c : Client) :
    (doCommand env c Commands.Quit (quitOp env) = c ∧ c.lastError ≠ none) ∨
      ∃ d rd rq, (doCommand env c Commands.Quit (quitOp env)).trace =
          c.trace ++ [⟨Call.SetDeadline d, rd⟩, ⟨Call.Quit, rq⟩] ∧
        ((doCommand env c Commands.Quit (quitOp env)).lastError = none → rq = none) := by
  cases hc : c.lastError with
  | some e =>
    left
    exact ⟨doCommand_of_some env c _ _ e hc, by simp⟩
  | none =>
    right
    rw [doCommand_of_none env c _ _ hc]
    refine ⟨env.now c.trace + c.optTimeout,
      env.fail c.trace (Call.SetDeadline (env.now c.trace + c.optTimeout)),
      env.fail (c.trace ++ [⟨Call.SetDeadline (env.now c.trace + c.optTimeout),
        env.fail c.trace (Call.SetDeadline (env.now c.trace + c.optTimeout))⟩]) Call.Quit,
      ?_, ?_⟩
    · simp only [runCallback, armDeadline, quitOp, Env.call]
      split <;> split <;> simp
    · simp only [runCallback, armDeadline, quitOp, Env.call]
      split <;> split <;> simp_all

theorem sendTestEmail_first_five_quiet (env : Env) (email : Email) (c : Client) :
    AddsOnly NotCloseNorQuit c
      (doCommands env c
        [(Commands.Ehlo, helloOp env), (Commands.StartTls, setTlsOp env),
          (Commands.MailFrom, mailOp env email.From), (Commands.RcptTo, rcptOp env),
          (Commands.Data, dataOp env email)]) := by
  refine doCommands_adds NotCloseNorQuit env (fun _ _ => ⟨by simp, by simp⟩) _ ?_ c
  intro p hp
  simp only [List.mem_cons, List.mem_singleton, List.not_mem_nil, or_false] at hp
  rcases hp with h | h | h | h | h <;> subst h
  · exact helloOp_quiet env
  · exact setTlsOp_quiet env
  · exact mailOp_quiet env _
  · exact rcptOp_quiet env
  · exact dataOp_quiet env email

theorem closeCalls_append (a b : List Event) :
    closeCalls (a ++ b) = closeCalls a + closeCalls b := by
  simp [closeCalls, List.countP_append]

theorem quitCalls_append (a b : List Event) :
    quitCalls (a ++ b) = quitCalls a + quitCalls b := by
  simp [quitCalls, List.countP_append]

theorem completedQuits_append (a b : List Event) :
    completedQuits (a ++ b) = completedQuits a + completedQuits b := by
  simp [completedQuits, List.countP_append]

theorem counts_when_quit_skipped (body : List Event) (rc : Option String)
    (h : ∀ e ∈ body, NotCloseNorQuit e) :
    closeCalls (body ++ [⟨Call.Close, rc⟩]) = 1 ∧ quitCalls (body ++ [⟨Call.Close, rc⟩]) = 0 ∧
      completedQuits (body ++ [⟨Call.Close, rc⟩]) = 0 := by
  obtain ⟨hc0, hq0, hd0⟩ := counts_of_notCloseNorQuit body h
  rw [closeCalls_append, quitCalls_append, completedQuits_append, hc0, hq0, hd0]
  simp [closeCalls, quitCalls, completedQuits, isCloseCall, isQuitCall, quitCompleted]

theorem counts_when_quit_run (body : List Event) (d : Int) (rd rq rc : Option String)
    (h : ∀ e ∈ body, NotCloseNorQuit e) :
    closeCalls (body ++ [⟨Call.SetDeadline d, rd⟩, ⟨Call.Quit, rq⟩, ⟨Call.Close, rc⟩]) = 1 ∧
      quitCalls (body ++ [⟨Call.SetDeadline d, rd⟩, ⟨Call.Quit, rq⟩, ⟨Call.Close, rc⟩]) = 1 ∧
      completedQuits
        (body ++ [⟨Call.SetDeadline d, rd⟩, ⟨Call.Quit, rq⟩, ⟨Call.Close, rc⟩]) ≤ 1 ∧
      (rq = none → completedQuits
        (body ++ [⟨Call.SetDeadline d, rd⟩, ⟨Call.Quit, rq⟩, ⟨Call.Close, rc⟩]) = 1) := by
  obtain ⟨hc0, hq0, hd0⟩ := counts_of_notCloseNorQuit body h
  rw [closeCalls_append, quitCalls_append, completedQuits_append, hc0, hq0, hd0]
  cases rq <;>
    simp [closeCalls, quitCalls, completedQuits, isCloseCall, isQuitCall, quitCompleted]

theorem counts_of_spoofing (body : List Event) (rc rq : Option String)
    (h : ∀ e ∈ body, NotCloseNorQuit e) :
    closeCalls (body ++ [⟨Call.Close, rc⟩, ⟨Call.Quit, rq⟩]) = 1 ∧
      quitCalls (body ++ [⟨Call.Close, rc⟩, ⟨Call.Quit, rq⟩]) = 1 ∧
      (rq ≠ none → completedQuits (body ++ [⟨Call.Close, rc⟩, ⟨Call.Quit, rq⟩]) = 0) := by
  obtain ⟨hc0, hq0, hd0⟩ := counts_of_notCloseNorQuit body h
  rw [closeCalls_append, quitCalls_append, completedQuits_append, hc0, hq0, hd0]
  cases rq <;>
    simp [closeCalls, quitCalls, completedQuits, isCloseCall, isQuitCall, quitCompleted]

/-- C6, amended: one call of SendTestEmail and one call of SpoofingTest each
call Client.Close exactly once, on the success path and on every failure
path.  SendTestEmail calls Quit at most once, before Close; counting also a
Quit that completes, it closes the connection once when its Quit step is
skipped or fails and twice when that step completes, as it does whenever
SendTestEmail returns no error.  SpoofingTest makes no Close and no Quit call
in its steps and then, on every path, calls Close and after it Quit, once
each, so it closes the connection exactly once whenever that Quit, attempted
on the closed connection, does not complete. -/
theorem close_called_once_per_procedure (env : Env) (c : Client) (email : Email)
    (sender : String) :
    (∃ added, (SendTestEmail env c email).2.trace = c.trace ++ added ∧
        closeCalls added = 1 ∧ quitCalls added ≤ 1 ∧ completedQuits added ≤ 1 ∧
        connectionCloses added = 1 + completedQuits added ∧
        ((SendTestEmail env c email).1 = none → connectionCloses added = 2)) ∧
      ∃ body rc rq,
        (SpoofingTest env c sender).2.trace =
            c.trace ++ (body ++ [⟨Call.Close, rc⟩, ⟨Call.Quit, rq⟩]) ∧
          (∀ e ∈ body, NotCloseNorQuit e) ∧
          closeCalls (body ++ [⟨Call.Close, rc⟩, ⟨Call.Quit, rq⟩]) = 1 ∧
          quitCalls (body ++ [⟨Call.Close, rc⟩, ⟨Call.Quit, rq⟩]) = 1 ∧
          (rq ≠ none →
            connectionCloses (body ++ [⟨Call.Close, rc⟩, ⟨Call.Quit, rq⟩]) = 1) := by
  constructor
  · obtain ⟨body, hbody, hquiet⟩ := sendTestEmail_first_five_quiet env email c
    have hsplit : doCommands env c (sendTestEmailSteps env email) =
        doCommand env (doCommands env c
          [(Commands.Ehlo, helloOp env), (Commands.StartTls, setTlsOp env),
            (Commands.MailFrom, mailOp env email.From), (Commands.RcptTo, rcptOp env),
            (Commands.Data, dataOp env email)]) Commands.Quit (quitOp env) := rfl
    rw [SendTestEmail_eq, hsplit]
    rcases quit_step env (doCommands env c
        [(Commands.Ehlo, helloOp env), (Commands.StartTls, setTlsOp env),
          (Commands.MailFrom, mailOp env email.From), (Commands.RcptTo, rcptOp env),
          (Commands.Data, dataOp env email)]) with ⟨hskip, herr⟩ | ⟨d, rd, rq, htr, hok⟩
    · rw [hskip]
      obtain ⟨k1, k2, k3⟩ :=
        counts_when_quit_skipped body (env.fail (c.trace ++ body) Call.Close) hquiet
      refine ⟨body ++ [⟨Call.Close, env.fail (c.trace ++ body) Call.Close⟩], ?_, k1, ?_, ?_, ?_,
        ?_⟩
      · simp [Env.call, hbody]
      · omega
      · omega
      · rw [connectionCloses]; omega
      · intro hnone
        exact absurd hnone herr
    · rw [hbody] at htr
      obtain ⟨k1, k2, k3, k4⟩ := counts_when_quit_run body d rd rq
        (env.fail (c.trace ++ body ++ [⟨Call.SetDeadline d, rd⟩, ⟨Call.Quit, rq⟩]) Call.Close)
        hquiet
      refine ⟨body ++ [⟨Call.SetDeadline d, rd⟩, ⟨Call.Quit, rq⟩,
        ⟨Call.Close, env.fail (c.trace ++ body ++ [⟨Call.SetDeadline d, rd⟩, ⟨Call.Quit, rq⟩])
          Call.Close⟩], ?_, k1, ?_, k3, ?_, ?_⟩
      · simp [Env.call, htr]
      · omega
      · rw [connectionCloses]; omega
      · intro hnone
        have := k4 (hok hnone)
        rw [connectionCloses]; omega
  · obtain ⟨body, hbody, hquiet⟩ := doCommands_adds NotCloseNorQuit env
      (fun _ _ => ⟨by simp, by simp⟩) (spoofingSteps env sender)
      (spoofingSteps_quiet env sender) { c with lastError := none }
    have hbody2 : (doCommands env { c with lastError := none } (spoofingSteps env sender)).trace =
        c.trace ++ body := hbody
    obtain ⟨k1, k2, k3⟩ := counts_of_spoofing body (env.fail (c.trace ++ body) Call.Close)
      (env.fail (c.trace ++ body ++ [⟨Call.Close, env.fail (c.trace ++ body) Call.Close⟩])
        Call.Quit) hquiet
    refine ⟨body, env.fail (c.trace ++ body) Call.Close,
      env.fail (c.trace ++ body ++ [⟨Call.Close, env.fail (c.trace ++ body) Call.Close⟩])
        Call.Quit, ?_, hquiet, k1, k2, ?_⟩
    · rw [SpoofingTest_eq]
      simp [Env.call, hbody2]
    · intro hrq
      have := k3 hrq
      rw [connectionCloses]; omega

theorem close_called_once_per_procedure_witness :
    (SendTestEmail envSenderRejected freshClient sampleEmail).1 =
        some (NewSmtpError Commands.MailFrom "sender rejected") ∧
      connectionCloses (SendTestEmail envSenderRejected freshClient sampleEmail).2.trace = 1 ∧
      connectionCloses (SpoofingTest envClosing freshClient "forged@victim.example").2.trace
        = 1 ∧
      ∃ added, (SendTestEmail envClosing freshClient sampleEmail).2.trace =
          freshClient.trace ++ added ∧ connectionCloses added = 2 := by
  refine ⟨by decide, by decide, by decide, ?_⟩
  obtain ⟨added, h1, _, _, _, _, h6⟩ :=
    (close_called_once_per_procedure envClosing freshClient sampleEmail "x").1
  exact ⟨added, h1, h6 (by decide)⟩

theorem call_congr (env : Env) (g : List Event → Call → Option String)
    (hg : ∀ t k, k ≠ Call.Close → k ≠ Call.Quit → g t k = env.fail t k)
    (x : Client) (k : Call) (h1 : k ≠ Call.Close) (h2 : k ≠ Call.Quit) :
    Env.call { env with fail := g } x k = env.call x k := by
  simp [Env.call, hg x.trace k h1 h2]

theorem armDeadline_congr (env : Env) (g : List Event → Call → Option String)
    (hg : ∀ t k, k ≠ Call.Close → k ≠ Call.Quit → g t k = env.fail t k)
    (x : Client) (s : Commands) :
    armDeadline { env with fail := g } x s = armDeadline env x s := by
  simp only [armDeadline]
  rw [call_congr env g hg _ _ (by simp) (by simp)]

theorem doCommands_congr (env : Env) (g : List Event → Call → Option String)
    (hg : ∀ t k, k ≠ Call.Close → k ≠ Call.Quit → g t k = env.fail t k)
    (steps : List (Commands × SmtpOperation)) :
    ∀ x : Client, doCommands { env with fail := g } x steps = doCommands env x steps := by
  induction steps with
  | nil => intro x; rfl
  | cons p rest ih =>
    intro x
    show doCommands { env with fail := g } (doCommand { env with fail := g } x p.1 p.2) rest =
      doCommands env (doCommand env x p.1 p.2) rest
    have hstep : doCommand { env with fail := g } x p.1 p.2 = doCommand env x p.1 p.2 := by
      simp only [doCommand, armDeadline_congr env g hg]
    rw [hstep, ih]

theorem setTls_congr (env : Env) (g : List Event → Call → Option String)
    (hg : ∀ t k, k ≠ Call.Close → k ≠ Call.Quit → g t k = env.fail t k)
    (x : Client) : setTls { env with fail := g } x = setTls env x := by
  have hcfg : ∀ y cn, getClientTLSConfig { env with fail := g } y cn =
      getClientTLSConfig env y cn := fun _ _ => rfl
  simp only [setTls, hcfg]
  simp only [call_congr env g hg _ (Call.StartTLS _) (by simp) (by simp)]

theorem spoofingSteps_congr (env : Env) (g : List Event → Call → Option String)
    (hg : ∀ t k, k ≠ Call.Close → k ≠ Call.Quit → g t k = env.fail t k)
    (sender : String) :
    spoofingSteps { env with fail := g } sender = spoofingSteps env sender := by
  have h1 : helloOp { env with fail := g } = helloOp env := by
    funext x
    exact call_congr env g hg x _ (by simp) (by simp)
  have h2 : setTlsOp { env with fail := g } = setTlsOp env := by
    funext x
    exact setTls_congr env g hg x
  have h3 : mailOp { env with fail := g } sender = mailOp env sender := by
    funext x
    exact call_congr env g hg x _ (by simp) (by simp)
  have h4 : rcptOp { env with fail := g } = rcptOp env := by
    funext x
    exact call_congr env g hg x _ (by simp) (by simp)
  simp only [spoofingSteps, h1, h2, h3, h4]

/-- C10: in every run of SpoofingTest, whatever its four steps do, the result
is the error recorded by the four steps, read before the deferred calls run.
The steps call neither Close nor Quit; after them the history ends with
exactly two more calls, Client.Close first and Client.Quit second, so Quit is
only attempted once Close has been called on the connection.  What Close and
Quit answer does not change the result: two servers that differ only in their
answers to Close and Quit give the same result. -/
theorem SpoofingTest_deferred_close_then_quit (env : Env) (c : Client) (sender : String) :
    (SpoofingTest env c sender).1 =
        (doCommands env { c with lastError := none } (spoofingSteps env sender)).lastError ∧
      (∃ body,
        (doCommands env { c with lastError := none } (spoofingSteps env sender)).trace =
            c.trace ++ body ∧
          (∀ e ∈ body, NotCloseNorQuit e) ∧
          (SpoofingTest env c sender).2.trace =
            c.trace ++ body ++
              [⟨Call.Close, env.fail (c.trace ++ body) Call.Close⟩,
                ⟨Call.Quit,
                  env.fail (c.trace ++ body ++
                    [⟨Call.Close, env.fail (c.trace ++ body) Call.Close⟩]) Call.Quit⟩]) ∧
      ∀ g : List Event → Call → Option String,
        (∀ t k, k ≠ Call.Close → k ≠ Call.Quit → g t k = env.fail t k) →
        (SpoofingTest { env with fail := g } c sender).1 = (SpoofingTest env c sender).1 := by
  refine ⟨rfl, ?_, ?_⟩
  · obtain ⟨body, hbody, hquiet⟩ := doCommands_adds NotCloseNorQuit env
      (fun _ _ => ⟨by simp, by simp⟩) (spoofingSteps env sender)
      (spoofingSteps_quiet env sender) { c with lastError := none }
    have hbody2 : (doCommands env { c with lastError := none } (spoofingSteps env sender)).trace =
        c.trace ++ body := hbody
    refine ⟨body, hbody2, hquiet, ?_⟩
    rw [SpoofingTest_eq]
    simp [Env.call, hbody2]
  · intro g hg
    rw [SpoofingTest_eq, SpoofingTest_eq, spoofingSteps_congr env g hg,
      doCommands_congr env g hg]

theorem SpoofingTest_deferred_close_then_quit_witness :
    (SpoofingTest envCleanupFails freshClient "forged@victim.example").1 =
        (SpoofingTest envOk freshClient "forged@victim.example").1 ∧
      (SpoofingTest envCleanupFails freshClient "forged@victim.example").2.trace.drop 8 =
        [⟨Call.Close, some "close failed"⟩, ⟨Call.Quit, some "quit failed"⟩] :=
  ⟨(SpoofingTest_deferred_close_then_quit envOk freshClient "forged@victim.example").2.2
      envCleanupFails.fail (fun _ k h1 h2 => by cases k <;> first | rfl | contradiction),
    by decide⟩

end MailSender
